import Mathlib

/-!
Verification of the Scoundrel dungeon solver (`src/solver.js`).

The JavaScript solver is shallowly embedded as pure Lean functions:
 - a deck is a `List Card` in the same order as the JS array
   (index 0 is the bottom of the deck, the last element is the top,
   matching the JS code that draws with `pop()` and returns cards to
   the bottom with `unshift()`);
 - JS numbers are embedded as `Int` (hp, which may be any integer the
   caller passes as `startingHp`) or `Nat` (ranks, counters);
 - the iterative DFS of `solve` is embedded with an explicit fuel
   argument; the JS loop runs at most `maxNodes + 2` iterations because
   the node counter is incremented every iteration and the loop aborts
   once it exceeds `maxNodes`, so the fuel `maxNodes + 2` is an upper
   bound on the iteration count and the out-of-fuel branch (which
   conservatively reports the node-limit verdict) is unreachable;
 - `Date.now() - startMs` (only read when a time limit is configured)
   is embedded as an oracle `elapsed : Nat → Nat` giving the elapsed
   milliseconds at each loop iteration.
-/

set_option maxHeartbeats 1000000

namespace Scoundrel

inductive Suit where
  | hearts
  | diamonds
  | clubs
  | spades
deriving DecidableEq, Repr

structure Card where
  suit : Suit
  rank : Nat
deriving DecidableEq, Repr

/-- `isEnemy` from solver.js: clubs and spades are enemies. -/
def isEnemy (c : Card) : Bool :=
  decide (c.suit = Suit.spades) || decide (c.suit = Suit.clubs)

/-- `isWeapon` from solver.js: diamonds of rank at most 10. -/
def isWeapon (c : Card) : Bool :=
  decide (c.suit = Suit.diamonds) && decide (c.rank ≤ 10)

/-- `isHealingPotion` from solver.js: hearts of rank at most 10. -/
def isHealingPotion (c : Card) : Bool :=
  decide (c.suit = Suit.hearts) && decide (c.rank ≤ 10)

/-- `isRepairToolkit` from solver.js: diamonds of rank at least 11. -/
def isRepairToolkit (c : Card) : Bool :=
  decide (c.suit = Suit.diamonds) && decide (11 ≤ c.rank)

/-- `isPoisonPotion` from solver.js: hearts of rank at least 11. -/
def isPoisonPotion (c : Card) : Bool :=
  decide (c.suit = Suit.hearts) && decide (11 ≤ c.rank)

/-- `filterDeckForMode` from solver.js: when special cards are excluded,
keep only rank-at-most-10 hearts and diamonds (other suits unchanged). -/
def filterDeckForMode (deck : List Card) (includeSpecialCards : Bool) : List Card :=
  if includeSpecialCards then deck
  else deck.filter fun c =>
    if decide (c.suit ≠ Suit.hearts) && decide (c.suit ≠ Suit.diamonds) then true
    else decide (c.rank ≤ 10)

/-- `drawTop` from solver.js: `deck.pop() ?? null`, returning the drawn
card (the last element of the array) and the remaining deck. -/
def drawTop (d : List Card) : Option Card × List Card :=
  (d.getLast?, d.dropLast)

structure GameState where
  hp : Int
  deck : List Card
  table : List (Option Card)
  weaponRank : Nat
  weaponKills : List Nat
  potionUsedThisRoom : Bool
  interactionsThisRoom : Nat
  fledLastRoom : Bool
deriving DecidableEq, Repr

/-- `cloneState` from solver.js: a field-by-field copy of the state
(the JS engine mutates only this private copy, never the argument). -/
def cloneState (s : GameState) : GameState :=
  { hp := s.hp
    deck := s.deck
    table := s.table
    weaponRank := s.weaponRank
    weaponKills := s.weaponKills
    potionUsedThisRoom := s.potionUsedThisRoom
    interactionsThisRoom := s.interactionsThisRoom
    fledLastRoom := s.fledLastRoom }

def suitIdx : Suit → Nat
  | Suit.hearts => 0
  | Suit.diamonds => 1
  | Suit.clubs => 2
  | Suit.spades => 3

/-- `encodeCard` from solver.js: 0 for null, else `suitIndex * 16 + rank`. -/
def encodeCard : Option Card → Nat
  | none => 0
  | some c => suitIdx c.suit * 16 + c.rank

/-- Decimal digit character, `'0'` + d. -/
def digitChar (d : Nat) : Char := Char.ofNat (48 + d)

/-- Fuel-driven decimal expansion of a natural number (most significant
digit first); `natChars` instantiates the fuel so it never runs out. -/
def natCharsAux : Nat → Nat → List Char
  | 0, _ => []
  | _ + 1, 0 => []
  | fuel + 1, n + 1 => natCharsAux fuel ((n + 1) / 10) ++ [digitChar ((n + 1) % 10)]

/-- The decimal-string conversion JS applies to numbers inside
template/`join` contexts, as a character list. -/
def natChars (n : Nat) : List Char :=
  if n = 0 then [Char.ofNat 48] else natCharsAux n n

/-- Decimal-string conversion of a (possibly negative) integer. -/
def intChars (i : Int) : List Char :=
  if i < 0 then Char.ofNat 45 :: natChars i.natAbs else natChars i.toNat

/-- `Array.prototype.join` with a one-character separator. -/
def joinSep (sep : Char) : List (List Char) → List Char
  | [] => []
  | [x] => x
  | x :: y :: ys => x ++ sep :: joinSep sep (y :: ys)

/-- `stateKey` from solver.js: the memoization key
`[hp, weaponRank, potionUsed, interactions, fled, killsKey, "|", tableKey, "|", deckKey].join(":")`
with `deckKey`/`tableKey` the encoded cards joined by `","` and
`killsKey` the kill ranks joined by `"."`. -/
def stateKey (s : GameState) : String :=
  let deckKey := joinSep (Char.ofNat 44) (s.deck.map fun c => natChars (encodeCard (some c)))
  let tableKey := joinSep (Char.ofNat 44) (s.table.map fun oc => natChars (encodeCard oc))
  let killsKey := joinSep (Char.ofNat 46) (s.weaponKills.map natChars)
  String.mk (joinSep (Char.ofNat 58)
    [intChars s.hp,
     natChars s.weaponRank,
     if s.potionUsedThisRoom then [Char.ofNat 49] else [Char.ofNat 48],
     natChars s.interactionsThisRoom,
     if s.fledLastRoom then [Char.ofNat 49] else [Char.ofNat 48],
     killsKey,
     [Char.ofNat 124],
     tableKey,
     [Char.ofNat 124],
     deckKey])

/-- `makeInitialState` from solver.js: filter the deck for the mode,
draw four cards from the top into the table, start at `startingHp`. -/
def makeInitialState (deck : List Card) (includeSpecialCards : Bool) (startingHp : Int) :
    GameState :=
  let d0 := filterDeckForMode deck includeSpecialCards
  let p1 := drawTop d0
  let p2 := drawTop p1.2
  let p3 := drawTop p2.2
  let p4 := drawTop p3.2
  { hp := startingHp
    deck := p4.2
    table := [p1.1, p2.1, p3.1, p4.1]
    weaponRank := 0
    weaponKills := []
    potionUsedThisRoom := false
    interactionsThisRoom := 0
    fledLastRoom := false }

/-- `isWinState` from solver.js: positive hp, empty deck, empty table. -/
def isWinState (s : GameState) : Bool :=
  decide (0 < s.hp) && s.deck.isEmpty && !(s.table.any Option.isSome)

/-- `isDeadState` from solver.js: hp at most 0. -/
def isDeadState (s : GameState) : Bool :=
  decide (s.hp ≤ 0)

inductive Method where
  | fist
  | weapon
deriving DecidableEq, Repr

inductive Action where
  | flee
  | enemy (slot : Nat) (method : Method)
  | weapon (slot : Nat)
  | toolkit (slot : Nat)
  | potion (slot : Nat)
deriving DecidableEq, Repr

/-- The JS table lookup `s.table[i]`: `none` both for an empty slot and
for an out-of-range index (JS `undefined`, which is falsy like null). -/
def slotCard (s : GameState) (i : Nat) : Option Card :=
  match s.table.get? i with
  | some (some c) => some c
  | _ => none

/-- The weapon-legality test appearing (twice) in solver.js: a weapon is
equipped and the candidate enemy rank is strictly below the most recent
weapon kill (or no weapon kill has happened yet). -/
def weaponAllowedRank (s : GameState) (enemyRank : Nat) : Bool :=
  if s.weaponRank = 0 then false
  else
    match s.weaponKills.getLast? with
    | none => true
    | some last => decide (enemyRank < last)

/-- The actions generated for one table slot inside `enumerateActions`. -/
def slotActions (s : GameState) (i : Nat) : List Action :=
  match slotCard s i with
  | none => []
  | some card =>
    if isEnemy card then
      [Action.enemy i Method.fist] ++
        (if weaponAllowedRank s card.rank then [Action.enemy i Method.weapon] else [])
    else if isWeapon card then [Action.weapon i]
    else if isRepairToolkit card then [Action.toolkit i]
    else if isHealingPotion card || isPoisonPotion card then [Action.potion i]
    else []

/-- `enumerateActions` from solver.js: an optional flee action followed
by the per-slot actions for slots 0 to 3. -/
def enumerateActions (s : GameState) : List Action :=
  (if s.interactionsThisRoom = 0 && !s.fledLastRoom && s.table.any Option.isSome then
    [Action.flee]
   else []) ++ (List.range 4).flatMap (slotActions s)

/-- One step of the refill loop in `afterInteraction`: if slot `i` is
null and the deck is non-empty, draw the top card into the slot. -/
def refillStep (td : List (Option Card) × List Card) (i : Nat) :
    List (Option Card) × List Card :=
  if td.1.get? i = some none ∧ td.2 ≠ [] then (td.1.set i td.2.getLast?, td.2.dropLast)
  else td

/-- The refill loop of `afterInteraction` (`for i = 0..3`). -/
def refill (t : List (Option Card)) (d : List Card) : List (Option Card) × List Card :=
  [0, 1, 2, 3].foldl refillStep (t, d)

inductive Terminal where
  | win
  | dead
deriving DecidableEq, Repr

/-- `afterInteraction` from solver.js: bump the interaction counter,
declare a win when no card remains anywhere, otherwise enter a new room
(refill, reset counters) after three interactions or when the table ran
dry. -/
def afterInteraction (s0 : GameState) : GameState × Option Terminal :=
  let s := { s0 with interactionsThisRoom := s0.interactionsThisRoom + 1 }
  if s.deck.isEmpty && !(s.table.any Option.isSome) then (s, some Terminal.win)
  else
    let hasAnyTableCard := s.table.any Option.isSome
    if decide (3 ≤ s.interactionsThisRoom) || !hasAnyTableCard then
      let td := refill s.table s.deck
      ({ s with
          table := td.1
          deck := td.2
          interactionsThisRoom := 0
          potionUsedThisRoom := false
          fledLastRoom := false }, none)
    else (s, none)

/-- The common return shape `{ state: end.terminal ? null : s, terminal: end.terminal }`. -/
def finishInteraction (s : GameState) : Option GameState × Option Terminal :=
  let e := afterInteraction s
  match e.2 with
  | some t => (none, some t)
  | none => (some e.1, none)

/-- The flee loop in `applyAction`: for `i = 3` down to `0`, unshift the
slot-`i` card (when present) onto the front (bottom) of the deck. -/
def fleeReturn (t : List (Option Card)) (d : List Card) : List Card :=
  [3, 2, 1, 0].foldl
    (fun dd i =>
      match t.get? i with
      | some (some c) => c :: dd
      | _ => dd) d

/-- `applyAction` from solver.js: apply one action to a private copy of
the state, producing `(nextState?, terminal?)`. -/
def applyAction (s0 : GameState) (action : Action) : Option GameState × Option Terminal :=
  let s := cloneState s0
  match action with
  | Action.flee =>
    let d0 := fleeReturn s.table s.deck
    let p1 := drawTop d0
    let p2 := drawTop p1.2
    let p3 := drawTop p2.2
    let p4 := drawTop p3.2
    (some { s with
        deck := p4.2
        table := [p1.1, p2.1, p3.1, p4.1]
        interactionsThisRoom := 0
        potionUsedThisRoom := false
        fledLastRoom := true }, none)
  | Action.enemy slot method =>
    match slotCard s slot with
    | none => (none, none)
    | some card =>
      let s1 := { s with table := s.table.set slot none }
      let enemyRank := card.rank
      match method with
      | Method.weapon =>
        if weaponAllowedRank s1 enemyRank then
          let damage : Int := max 0 ((enemyRank : Int) - (s1.weaponRank : Int))
          let hp1 := max 0 (s1.hp - damage)
          if hp1 ≤ 0 then (none, some Terminal.dead)
          else finishInteraction
            { s1 with hp := hp1, weaponKills := s1.weaponKills ++ [enemyRank] }
        else (none, none)
      | Method.fist =>
        let hp1 := max 0 (s1.hp - (enemyRank : Int))
        if hp1 ≤ 0 then (none, some Terminal.dead)
        else finishInteraction { s1 with hp := hp1 }
  | Action.weapon slot =>
    match slotCard s slot with
    | none => (none, none)
    | some card =>
      finishInteraction
        { s with table := s.table.set slot none, weaponRank := card.rank, weaponKills := [] }
  | Action.toolkit slot =>
    match slotCard s slot with
    | none => (none, none)
    | some _ =>
      let s1 := { s with table := s.table.set slot none }
      let s2 :=
        if 0 < s1.weaponRank ∧ s1.weaponKills ≠ [] then
          { s1 with weaponKills := s1.weaponKills.dropLast }
        else s1
      finishInteraction s2
  | Action.potion slot =>
    match slotCard s slot with
    | none => (none, none)
    | some card =>
      let s1 := { s with table := s.table.set slot none }
      let isLastCardOverall := s1.deck.isEmpty && !(s1.table.any Option.isSome)
      if isLastCardOverall && isHealingPotion card then (none, some Terminal.win)
      else if s1.potionUsedThisRoom then finishInteraction s1
      else
        let s2 := { s1 with potionUsedThisRoom := true }
        if isPoisonPotion card then
          let hp1 := max 0 (s2.hp - 10)
          if hp1 ≤ 0 then (none, some Terminal.dead)
          else finishInteraction { s2 with hp := hp1 }
        else finishInteraction { s2 with hp := min 20 (s2.hp + (card.rank : Int)) }

inductive Reason where
  | dead_start
  | time_limit
  | node_limit
  | aborted
deriving DecidableEq, Repr

/-- The verdict objects returned by `solve`; absent JS fields are `none`. -/
structure SolveResult where
  clearable : Option Bool
  reason : Option Reason := none
  nodes : Option Nat := none
  path : Option (List Action) := none
  ms : Option Nat := none
deriving DecidableEq, Repr

/-- The options object of `solve`, with its JS defaults. -/
structure SolveOpts where
  includeSpecialCards : Bool := true
  startingHp : Int := 20
  maxNodes : Nat := 500000
  returnPath : Bool := false
  timeLimitMs : Option Nat := none

/-- A DFS frame: a state, its lazily computed action list, and a cursor. -/
structure Frame where
  state : GameState
  actions : Option (List Action)
  index : Nat

/-- The parent map for path reconstruction: entries are
`key ↦ none` (the root, JS `{prevKey: null, action: null}`) or
`key ↦ some (prevKey, action)`.  The JS `Map` only ever receives a key
once, so an insertion-ordered association list is a faithful model. -/
abbrev ParentMap := List (String × Option (String × Action))

def lookupParent : ParentMap → String → Option (Option (String × Action))
  | [], _ => none
  | (k1, v) :: m, k => if k = k1 then some v else lookupParent m k

/-- The parent-pointer walk of `solve` (`while (true) { ... }`): follow
`prevKey` links, pushing each action, until the root (or a missing
entry) is reached.  The fuel only bounds the loop; the caller passes
the map size, which suffices because each entry points to a strictly
older entry. -/
def walkParent (m : ParentMap) : Nat → String → List Action → List Action
  | 0, _, acc => acc
  | fuel + 1, cur, acc =>
    match lookupParent m cur with
    | some (some (pk, a)) => walkParent m fuel pk (acc ++ [a])
    | _ => acc

/-- Decimal string of a natural number (for the `WIN@i` key suffix). -/
def natStr (n : Nat) : String := String.mk (natChars n)

/-- The configuration of one `solve` run: the node budget, the optional
time limit, and the elapsed-milliseconds oracle standing in for
`Date.now() - startMs` at each loop iteration. -/
structure LoopCfg where
  maxNodes : Nat
  timeLimitMs : Option Nat
  elapsed : Nat → Nat

/-- The parent-map update on pushing a fresh child state (solver.js
lines 389-391): with path reconstruction off the map stays absent,
otherwise the child's key is bound to `(parent key, action)` unless an
entry already exists. -/
def pushParent (parent : Option ParentMap) (nk : String) (ent : String × Action) :
    Option ParentMap :=
  match parent with
  | some m => if (lookupParent m nk).isSome then some m else some ((nk, some ent) :: m)
  | none => none

/-- The action-processing half of one `solve` loop iteration (lines
393-423 of solver.js), parameterized by the recursive re-entry `recur`.
`st`/`acts`/`index` are the top frame's fields (with `actions` already
computed), `k` its memo key and `rest` the remainder of the stack.
The JS code reads `frame.actions[frame.index++]` and later uses
`frame.index - 1` in the win key, so `index` here is the pre-increment
cursor. -/
def procActions
    (recur : Nat → List String → Option ParentMap → List (Frame × String) → SolveResult)
    (nodes : Nat) (visited : List String) (parent : Option ParentMap)
    (st : GameState) (acts : List Action) (index : Nat) (k : String)
    (rest : List (Frame × String)) : SolveResult :=
  if h : acts.length ≤ index then recur nodes visited parent rest
  else
    let a := acts.get ⟨index, by omega⟩
    let f1 : Frame := ⟨st, some acts, index + 1⟩
    match applyAction st a with
    | (_, some Terminal.win) =>
      match parent with
      | none => { clearable := some true, nodes := some nodes }
      | some m =>
        let winKey := k ++ "=>WIN@" ++ natStr index
        let m1 := (winKey, some (k, a)) :: m
        let path := (walkParent m1 m1.length winKey []).reverse
        { clearable := some true, nodes := some nodes, path := some path }
    | (_, some Terminal.dead) => recur nodes visited parent ((f1, k) :: rest)
    | (none, none) => recur nodes visited parent ((f1, k) :: rest)
    | (some s2, none) =>
      let nk := stateKey s2
      if nk ∈ visited then recur nodes visited parent ((f1, k) :: rest)
      else
        let parent1 := pushParent parent nk (k, a)
        recur nodes visited parent1 ((⟨s2, none, 0⟩, nk) :: (f1, k) :: rest)

/-- One iteration of the `solve` while-loop (solver.js lines 361-424),
parameterized by the recursive re-entry `recur`.  The stack is the JS
`stack`/`keyStack` pair, kept in lockstep as a single list whose head
is the JS array end (`stack[stack.length - 1]`); `returnPath` is
recovered as `parent.isSome`, which the JS code keeps equivalent. -/
def loopBody (cfg : LoopCfg)
    (recur : Nat → List String → Option ParentMap → List (Frame × String) → SolveResult)
    (nodes : Nat) (visited : List String) (parent : Option ParentMap)
    (stack : List (Frame × String)) : SolveResult :=
  match stack with
  | [] =>
    { clearable := some false, nodes := some nodes
      ms := cfg.timeLimitMs.map fun _ => cfg.elapsed nodes }
  | (f, k) :: rest =>
    if (match cfg.timeLimitMs with
        | some t => decide (t ≤ cfg.elapsed nodes)
        | none => false) then
      { clearable := none, reason := some Reason.time_limit, nodes := some nodes
        ms := some (cfg.elapsed nodes) }
    else if cfg.maxNodes < nodes then
      { clearable := none, reason := some Reason.node_limit, nodes := some (nodes + 1) }
    else
      let nodes1 := nodes + 1
      match f.actions with
      | some acts => procActions recur nodes1 visited parent f.state acts f.index k rest
      | none =>
        if k ∈ visited then recur nodes1 visited parent rest
        else
          let visited1 := k :: visited
          if isDeadState f.state then recur nodes1 visited1 parent rest
          else if isWinState f.state then
            { clearable := some true, nodes := some nodes1
              path := parent.map fun _ => [] }
          else
            procActions recur nodes1 visited1 parent f.state (enumerateActions f.state) 0 k rest

/-- The `solve` while-loop as a fueled recursion.  The zero-fuel branch
conservatively reports the node-limit verdict; it is unreachable when
the fuel is `maxNodes + 2` because every iteration increments `nodes`
and the iteration entered with `nodes = maxNodes + 1` already returns
the node-limit verdict. -/
def loopGo (cfg : LoopCfg) :
    Nat → Nat → List String → Option ParentMap → List (Frame × String) → SolveResult
  | 0, nodes, _, _, _ =>
    { clearable := none, reason := some Reason.node_limit, nodes := some nodes }
  | fuel + 1, nodes, visited, parent, stack =>
    loopBody cfg (loopGo cfg fuel) nodes visited parent stack

/-- `solve` from solver.js.  `elapsed` is the wall-clock oracle (the
value of `Date.now() - startMs` observed at each loop iteration). -/
def solve (elapsed : Nat → Nat) (deck : List Card) (opts : SolveOpts) : SolveResult :=
  let initial := makeInitialState deck opts.includeSpecialCards opts.startingHp
  if isDeadState initial then
    { clearable := some false, reason := some Reason.dead_start }
  else if isWinState initial then { clearable := some true, path := some [] }
  else
    let parent : Option ParentMap :=
      if opts.returnPath then some [(stateKey initial, none)] else none
    let cfg : LoopCfg :=
      { maxNodes := opts.maxNodes, timeLimitMs := opts.timeLimitMs, elapsed := elapsed }
    loopGo cfg (opts.maxNodes + 2) 0 [] parent [(⟨initial, none, 0⟩, stateKey initial)]

/-- Modelled from the spec: the repository's app layer calls
`solver.solveCooperative(deck, {..., shouldAbort})`, but no definition
of `solveCooperative` appears in the sources; §4.6/§5 of the spec
require a cooperative variant of the same search that periodically
suspends (here: at every iteration whose counter is a multiple of
`yieldEvery`) and polls an externally supplied abort predicate at each
suspension point, returning an indeterminate verdict immediately when
it is set.  This is the same fueled loop as `loopGo` with that
suspension check added. -/
def loopGoCoop (cfg : LoopCfg) (yieldEvery : Nat) (shouldAbort : Nat → Bool) :
    Nat → Nat → List String → Option ParentMap → List (Frame × String) → SolveResult
  | 0, nodes, _, _, _ =>
    { clearable := none, reason := some Reason.node_limit, nodes := some nodes }
  | fuel + 1, nodes, visited, parent, stack =>
    if nodes % yieldEvery = 0 && shouldAbort nodes then
      { clearable := none, reason := some Reason.aborted, nodes := some nodes }
    else loopBody cfg (loopGoCoop cfg yieldEvery shouldAbort fuel) nodes visited parent stack

/-- Modelled from the spec: the cooperative variant of `solve` (absent
from the sources, called by the app layer), sharing `solve`'s whole
contract and adding the suspension/abort behaviour of `loopGoCoop`. -/
def solveCooperative (elapsed : Nat → Nat) (deck : List Card) (opts : SolveOpts)
    (yieldEvery : Nat) (shouldAbort : Nat → Bool) : SolveResult :=
  let initial := makeInitialState deck opts.includeSpecialCards opts.startingHp
  if isDeadState initial then
    { clearable := some false, reason := some Reason.dead_start }
  else if isWinState initial then { clearable := some true, path := some [] }
  else
    let parent : Option ParentMap :=
      if opts.returnPath then some [(stateKey initial, none)] else none
    let cfg : LoopCfg :=
      { maxNodes := opts.maxNodes, timeLimitMs := opts.timeLimitMs, elapsed := elapsed }
    loopGoCoop cfg yieldEvery shouldAbort (opts.maxNodes + 2) 0 [] parent
      [(⟨initial, none, 0⟩, stateKey initial)]

/-- States reachable from the initial state of a deck by any sequence
of non-terminal `applyAction` steps. -/
inductive ReachableState (deck : List Card) (inc : Bool) : GameState → Prop where
  | init : ReachableState deck inc (makeInitialState deck inc 20)
  | step {s : GameState} {a : Action} {s2 : GameState} :
      ReachableState deck inc s → (applyAction s a).1 = some s2 → ReachableState deck inc s2

/-- A card of the 52-card space (rank 2..14; 11 = J, 12 = Q, 13 = K, 14 = A). -/
def ValidCard (c : Card) : Prop := 2 ≤ c.rank ∧ c.rank ≤ 14

/-- Well-formed states: a 4-slot table and all cards from the 52-card space. -/
def WFState (s : GameState) : Prop :=
  s.table.length = 4 ∧
    (∀ c : Card, some c ∈ s.table → ValidCard c) ∧
    ∀ c ∈ s.deck, ValidCard c

/-- A winnable state: some finite sequence of enumerated actions applied
from it (through live, non-terminal states) reaches the win terminal.
A dead state is terminal, so no action may be applied from it. -/
inductive Winnable : GameState → Prop where
  | win {s : GameState} : isWinState s = true → Winnable s
  | stepWin {s : GameState} (a : Action) : isDeadState s = false → a ∈ enumerateActions s →
      (applyAction s a).2 = some Terminal.win → Winnable s
  | step {s : GameState} {a : Action} {s2 : GameState} : isDeadState s = false →
      a ∈ enumerateActions s → applyAction s a = (some s2, none) → Winnable s2 → Winnable s

/-- `ReplayTo s path t`: replaying `path` from `s` through legal
(enumerated) non-terminal transitions ends in the state `t`. -/
def ReplayTo : GameState → List Action → GameState → Prop
  | s, [], t => t = s
  | s, a :: rest, t =>
    ∃ s1, a ∈ enumerateActions s ∧ applyAction s a = (some s1, none) ∧ ReplayTo s1 rest t

/-- `PathWins s path`: replaying `path` from `s` is a sequence of legal
(enumerated) transitions whose last step yields the win terminal (an
empty path means `s` is already a win state). -/
def PathWins : GameState → List Action → Prop
  | s, [] => isWinState s = true
  | s, a :: rest =>
    a ∈ enumerateActions s ∧
      (((applyAction s a).2 = some Terminal.win ∧ rest = []) ∨
        ∃ s1, applyAction s a = (some s1, none) ∧ PathWins s1 rest)

/-- A parent-map key whose chain of `prevKey` links reaches the root
entry, collecting `acts` (in root-to-key order). -/
inductive GoodKey (m : ParentMap) : String → List Action → Prop where
  | root {k : String} : lookupParent m k = some none → GoodKey m k []
  | step {k pk : String} {a : Action} {acts : List Action} :
      lookupParent m k = some (some (pk, a)) → GoodKey m pk acts → GoodKey m k (acts ++ [a])

/-- A fully processed action of a frame: it did not produce the win
terminal, and any non-terminal successor is memoized or on the stack
above the frame. -/
def ActionDone (visited : List String) (above : List GameState) (s : GameState) (a : Action) :
    Prop :=
  (applyAction s a).2 ≠ some Terminal.win ∧
    ∀ s2, applyAction s a = (some s2, none) → stateKey s2 ∈ visited ∨ s2 ∈ above

/-- Invariant of one DFS frame (with `above` the states stacked above it). -/
def FrameOK (visited : List String) (above : List GameState) (f : Frame) (k : String) : Prop :=
  WFState f.state ∧ k = stateKey f.state ∧ isWinState f.state = false ∧
    ∀ acts, f.actions = some acts →
      acts = enumerateActions f.state ∧ f.index ≤ acts.length ∧
        isDeadState f.state = false ∧ stateKey f.state ∈ visited ∧
        ∀ (j : Nat), j < f.index → ∀ (hj : j < acts.length),
          ActionDone visited above f.state (acts.get ⟨j, hj⟩)

/-- Invariant of the DFS stack, threading the list of states above. -/
def StackOK (visited : List String) : List (Frame × String) → List GameState → Prop
  | [], _ => True
  | (f, k) :: rest, above => FrameOK visited above f k ∧ StackOK visited rest (f.state :: above)

/-- A fully explored state: not a win, no action from it wins, and all
its non-terminal successors are memoized. -/
def ClosedState (visited : List String) (s : GameState) : Prop :=
  isWinState s = false ∧
    ∀ a ∈ enumerateActions s, (applyAction s a).2 ≠ some Terminal.win ∧
      ∀ s2, applyAction s a = (some s2, none) → stateKey s2 ∈ visited

/-- Every memoized well-formed state is dead, still on the stack, or
fully explored. -/
def VisitedOK (visited : List String) (stack : List (Frame × String)) : Prop :=
  ∀ s : GameState, WFState s → stateKey s ∈ visited →
    isDeadState s = true ∨ (∃ fk ∈ stack, (Prod.fst fk).state = s) ∨ ClosedState visited s

/-- An unexpanded top frame has not been memoized yet. -/
def TopOK (visited : List String) : List (Frame × String) → Prop
  | [] => True
  | (f, k) :: _ => f.actions = none → k ∉ visited

/-- Every frame except possibly the top one has been expanded. -/
def NonTopExpanded : List (Frame × String) → Prop
  | [] => True
  | _ :: rest => ∀ fk ∈ rest, (Prod.fst fk).actions.isSome = true

/-- Invariant of the parent map: the root entry is present, and every
entry's key is the key of a well-formed state reached by a legal replay
whose actions are collected by the entry's chain to the root. -/
def ParentEntryOK (init : GameState) (m : ParentMap) : Prop :=
  lookupParent m (stateKey init) = some none ∧
    ∀ k e, lookupParent m k = some e →
      ∃ acts s, GoodKey m k acts ∧ acts.length < m.length ∧
        WFState s ∧ k = stateKey s ∧ ReplayTo init acts s

/-- Parent-map part of the search invariant (trivial when no path
reconstruction was requested). -/
def ParentOK (init : GameState) (parent : Option ParentMap)
    (stack : List (Frame × String)) : Prop :=
  match parent with
  | none => True
  | some m =>
    ParentEntryOK init m ∧ ∀ fk ∈ stack, (lookupParent m (Prod.snd fk)).isSome = true

/-- The full invariant of the `solve` DFS loop. -/
structure SearchInv (init : GameState) (visited : List String) (parent : Option ParentMap)
    (stack : List (Frame × String)) : Prop where
  wf_init : WFState init
  init_mem : stateKey init ∈ visited ∨ ∃ fk ∈ stack, (Prod.fst fk).state = init
  frames : StackOK visited stack []
  top_ok : TopOK visited stack
  nontop : NonTopExpanded stack
  visited_ok : VisitedOK visited stack
  parent_ok : ParentOK init parent stack

/-- The two soundness properties of one solver run: a `clearable: false`
verdict proves the initial state unwinnable, and a `clearable: true`
verdict returning a path returns a genuine winning path. -/
def ResultOK (init : GameState) (r : SolveResult) : Prop :=
  (r.clearable = some false → ¬ Winnable init) ∧
    ∀ p, r.clearable = some true → r.path = some p → PathWins init p

/-- Numeric value of a decimal digit character. -/
def chVal (c : Char) : Nat := c.toNat - 48

/-- Value of a decimal digit string (left inverse of `natChars`). -/
def charsVal (l : List Char) : Nat := l.foldl (fun acc c => acc * 10 + chVal c) 0

lemma makeInitialState_hp (deck : List Card) (inc : Bool) (shp : Int) :
    (makeInitialState deck inc shp).hp = shp := rfl

lemma makeInitialState_interactions (deck : List Card) (inc : Bool) (shp : Int) :
    (makeInitialState deck inc shp).interactionsThisRoom = 0 := rfl

lemma cloneState_eq (s : GameState) : cloneState s = s := rfl

lemma afterInteraction_interactions {s s2 : GameState}
    (h : afterInteraction s = (s2, none)) : s2.interactionsThisRoom < 3 := by
  unfold afterInteraction at h
  simp only [] at h
  split at h
  · simp at h
  · split at h
    · rw [Prod.mk.injEq] at h
      rw [← h.1]
      simp
    · rename_i hcond
      rw [Prod.mk.injEq] at h
      rw [← h.1]
      simp at hcond
      simp
      omega

lemma finishInteraction_state {s s2 : GameState}
    (h : (finishInteraction s).1 = some s2) : afterInteraction s = (s2, none) := by
  rcases hm : afterInteraction s with ⟨a, b⟩
  unfold finishInteraction at h
  rw [hm] at h
  cases b with
  | none => simp at h; rw [h]
  | some t => simp at h

lemma applyAction_interactions {s : GameState} {a : Action} {s2 : GameState}
    (h : (applyAction s a).1 = some s2) : s2.interactionsThisRoom < 3 := by
  cases a with
  | flee =>
    simp only [applyAction, cloneState_eq] at h
    simp at h
    rw [← h]
    simp
  | enemy slot method =>
    simp only [applyAction, cloneState_eq] at h
    rcases hc : slotCard s slot with _ | card
    · rw [hc] at h; simp at h
    · rw [hc] at h
      cases method with
      | weapon =>
        simp only at h
        split at h
        · split at h
          · simp at h
          · exact afterInteraction_interactions (finishInteraction_state h)
        · simp at h
      | fist =>
        simp only at h
        split at h
        · simp at h
        · exact afterInteraction_interactions (finishInteraction_state h)
  | weapon slot =>
    simp only [applyAction, cloneState_eq] at h
    rcases hc : slotCard s slot with _ | card
    · rw [hc] at h; simp at h
    · rw [hc] at h
      exact afterInteraction_interactions (finishInteraction_state h)
  | toolkit slot =>
    simp only [applyAction, cloneState_eq] at h
    rcases hc : slotCard s slot with _ | card
    · rw [hc] at h; simp at h
    · rw [hc] at h
      exact afterInteraction_interactions (finishInteraction_state h)
  | potion slot =>
    simp only [applyAction, cloneState_eq] at h
    rcases hc : slotCard s slot with _ | card
    · rw [hc] at h; simp at h
    · rw [hc] at h
      simp only at h
      split at h
      · simp at h
      · split at h
        · exact afterInteraction_interactions (finishInteraction_state h)
        · split at h
          · split at h
            · simp at h
            · exact afterInteraction_interactions (finishInteraction_state h)
          · exact afterInteraction_interactions (finishInteraction_state h)

/-- Claim C9: when the initial state is already dead (`startingHp ≤ 0`),
`solve` returns, before any search, the verdict
`{clearable: false, reason: "dead_start"}` — a `clearable: false` shape
carrying a reason field, with no node counter, path or timing fields. -/
theorem solve_dead_start (elapsed : Nat → Nat) (deck : List Card) (opts : SolveOpts)
    (h : opts.startingHp ≤ 0) :
    solve elapsed deck opts =
      { clearable := some false, reason := some Reason.dead_start } := by
  unfold solve
  have hd : isDeadState (makeInitialState deck opts.includeSpecialCards opts.startingHp) = true := by
    simp [isDeadState, makeInitialState_hp]
    exact h
  simp [hd]

/-- Witness for C9 at a concrete input. -/
theorem solve_dead_start_witness :
    (0 : Int) ≤ 0 ∧
      solve (fun _ => 0) [⟨Suit.spades, 14⟩] { startingHp := 0 } =
        { clearable := some false, reason := some Reason.dead_start } :=
  ⟨le_refl 0, solve_dead_start (fun _ => 0) [⟨Suit.spades, 14⟩] { startingHp := 0 } (by decide)⟩

/-- Claim C10: the initial state has `interactionsThisRoom = 0`, and
every non-terminal state returned by `applyAction` has
`interactionsThisRoom` in `{0, 1, 2}` (the room-advance step resets the
counter whenever it reaches 3), so the value 3 is never observable. -/
theorem interactions_lt_three :
    (∀ (deck : List Card) (inc : Bool) (shp : Int),
        (makeInitialState deck inc shp).interactionsThisRoom = 0) ∧
      ∀ (s : GameState) (a : Action) (s2 : GameState),
        (applyAction s a).1 = some s2 → s2.interactionsThisRoom < 3 :=
  ⟨makeInitialState_interactions, fun _ _ _ h => applyAction_interactions h⟩

/-- Witness for C10 at a concrete input. -/
theorem interactions_lt_three_witness :
    (makeInitialState [⟨Suit.spades, 14⟩] true 20).interactionsThisRoom = 0 ∧
      ((applyAction ⟨20, [], [some ⟨Suit.spades, 2⟩, some ⟨Suit.spades, 3⟩, none, none], 0, [],
          false, 0, false⟩ (Action.enemy 0 Method.fist)).1 =
        some ⟨18, [], [none, some ⟨Suit.spades, 3⟩, none, none], 0, [], false, 1, false⟩ ∧
      (⟨18, [], [none, some ⟨Suit.spades, 3⟩, none, none], 0, [], false, 1, false⟩ :
          GameState).interactionsThisRoom < 3) := by
  refine ⟨interactions_lt_three.1 _ _ _, ?_, ?_⟩
  · decide
  · exact interactions_lt_three.2
      ⟨20, [], [some ⟨Suit.spades, 2⟩, some ⟨Suit.spades, 3⟩, none, none], 0, [], false, 0, false⟩
      (Action.enemy 0 Method.fist)
      ⟨18, [], [none, some ⟨Suit.spades, 3⟩, none, none], 0, [], false, 1, false⟩ (by decide)

lemma weaponAllowedRank_set_table (s : GameState) (i : Nat) (r : Nat) :
    weaponAllowedRank { s with table := s.table.set i none } r = weaponAllowedRank s r := by
  simp [weaponAllowedRank]

/-- Claim C7: `applyAction` acts on a private field-complete copy of the
input state (so the parent state is never modified: the embedding is
pure, and `cloneState` copies every field, `cloneState s0 = s0`), and a
weapon-fight whose precondition fails (no weapon equipped, or the enemy
rank not strictly below the top of `weaponKills`, i.e.
`weaponAllowedRank` false) yields the no-result sentinel
`{state: null, terminal: null}`. -/
theorem applyAction_frame_and_illegal_sentinel (s0 : GameState) :
    cloneState s0 = s0 ∧
      ∀ (i : Nat) (c : Card), slotCard s0 i = some c →
        weaponAllowedRank s0 c.rank = false →
        applyAction s0 (Action.enemy i Method.weapon) = (none, none) := by
  refine ⟨cloneState_eq s0, ?_⟩
  intro i c hc hw
  simp only [applyAction, cloneState_eq]
  rw [hc]
  simp only
  rw [weaponAllowedRank_set_table, hw]
  simp

/-- Witness for C7 at a concrete input. -/
theorem applyAction_frame_and_illegal_sentinel_witness :
    slotCard ⟨20, [], [some ⟨Suit.spades, 5⟩, none, none, none], 0, [], false, 0, false⟩ 0 =
        some ⟨Suit.spades, 5⟩ ∧
      weaponAllowedRank
          ⟨20, [], [some ⟨Suit.spades, 5⟩, none, none, none], 0, [], false, 0, false⟩ 5 = false ∧
      applyAction ⟨20, [], [some ⟨Suit.spades, 5⟩, none, none, none], 0, [], false, 0, false⟩
          (Action.enemy 0 Method.weapon) = (none, none) := by
  refine ⟨by decide, by decide, ?_⟩
  exact (applyAction_frame_and_illegal_sentinel
    ⟨20, [], [some ⟨Suit.spades, 5⟩, none, none, none], 0, [], false, 0, false⟩).2 0
    ⟨Suit.spades, 5⟩ (by decide) (by decide)

lemma slotCard_lt_length {s : GameState} {i : Nat} {c : Card}
    (h : slotCard s i = some c) : i < s.table.length := by
  unfold slotCard at h
  rcases hg : s.table.get? i with _ | oc
  · rw [hg] at h; simp at h
  · obtain ⟨hlt, _⟩ := List.get?_eq_some.mp hg
    exact hlt

lemma mem_slotActions_enemy {s : GameState} {i j : Nat} {m : Method} :
    Action.enemy i m ∈ slotActions s j ↔
      i = j ∧ ∃ c, slotCard s j = some c ∧ isEnemy c = true ∧
        (m = Method.fist ∨ m = Method.weapon ∧ weaponAllowedRank s c.rank = true) := by
  rcases hc : slotCard s j with _ | card
  · simp [slotActions, hc]
  · by_cases he : isEnemy card
    · by_cases hw : weaponAllowedRank s card.rank
      · cases m <;> simp [slotActions, hc, he, hw]
      · cases m <;> simp [slotActions, hc, he, hw]
    · constructor
      · intro hmem
        exfalso
        simp only [slotActions, hc] at hmem
        rw [if_neg (by simp [he])] at hmem
        split at hmem
        · simp at hmem
        · split at hmem
          · simp at hmem
          · split at hmem <;> simp at hmem
      · rintro ⟨hi, c2, hc2, he2, hm⟩
        injection hc2 with hcc
        subst hcc
        exact absurd he2 he

/-- Claim C4: for a 4-slot table, the weapon-fight action for slot `i`
is enumerated iff the slot holds an enemy card, a weapon is equipped
and the kill-stack is empty or the card's rank is strictly below its
last element; the fist-fight action is enumerated for every occupied
enemy slot. -/
theorem enumerateActions_weapon_fist_spec (s : GameState) (hlen : s.table.length = 4)
    (i : Nat) :
    ((Action.enemy i Method.weapon ∈ enumerateActions s) ↔
      ∃ c, slotCard s i = some c ∧ isEnemy c = true ∧ 0 < s.weaponRank ∧
        (s.weaponKills = [] ∨ ∃ r, s.weaponKills.getLast? = some r ∧ c.rank < r)) ∧
      ∀ c, slotCard s i = some c → isEnemy c = true →
        Action.enemy i Method.fist ∈ enumerateActions s := by
  have hcond : ∀ c : Card, weaponAllowedRank s c.rank = true ↔
      0 < s.weaponRank ∧
        (s.weaponKills = [] ∨ ∃ r, s.weaponKills.getLast? = some r ∧ c.rank < r) := by
    intro c
    unfold weaponAllowedRank
    rcases hk : s.weaponKills.getLast? with _ | last
    · have : s.weaponKills = [] := List.getLast?_eq_none_iff.mp hk
      simp [this]
      omega
    · have : s.weaponKills ≠ [] := by
        intro hnil
        rw [hnil] at hk
        simp at hk
      split
      · rename_i h0
        simp [h0, this]
      · rename_i h0
        simp [this, Nat.pos_iff_ne_zero, h0]
  have hmem : ∀ m : Method, Action.enemy i m ∈ enumerateActions s ↔
      ∃ c, slotCard s i = some c ∧ isEnemy c = true ∧
        (m = Method.fist ∨ m = Method.weapon ∧ weaponAllowedRank s c.rank = true) := by
    intro m
    unfold enumerateActions
    rw [List.mem_append]
    constructor
    · rintro (hfl | hfm)
      · exfalso
        split at hfl <;> simp at hfl
      · rw [List.mem_flatMap] at hfm
        rcases hfm with ⟨j, _, hj⟩
        rcases mem_slotActions_enemy.mp hj with ⟨rfl, c, hc, he, hm⟩
        exact ⟨c, hc, he, hm⟩
    · rintro ⟨c, hc, he, hm⟩
      right
      rw [List.mem_flatMap]
      have hi4 : i < 4 := by
        have := slotCard_lt_length hc
        omega
      refine ⟨i, by simp [List.mem_range]; omega, ?_⟩
      exact mem_slotActions_enemy.mpr ⟨rfl, c, hc, he, hm⟩
  constructor
  · rw [hmem Method.weapon]
    constructor
    · rintro ⟨c, hc, he, hm | ⟨_, hw⟩⟩
      · simp at hm
      · exact ⟨c, hc, he, (hcond c).mp hw⟩
    · rintro ⟨c, hc, he, hw⟩
      exact ⟨c, hc, he, Or.inr ⟨rfl, (hcond c).mpr hw⟩⟩
  · intro c hc he
    exact (hmem Method.fist).mpr ⟨c, hc, he, Or.inl rfl⟩

/-- Witness for C4 at a concrete input. -/
theorem enumerateActions_weapon_fist_spec_witness :
    ((⟨20, [], [some ⟨Suit.spades, 5⟩, none, none, none], 7, [6], false, 0, false⟩ :
        GameState).table.length = 4) ∧
      ((Action.enemy 0 Method.weapon ∈
          enumerateActions
            ⟨20, [], [some ⟨Suit.spades, 5⟩, none, none, none], 7, [6], false, 0, false⟩) ↔
        ∃ c, slotCard ⟨20, [], [some ⟨Suit.spades, 5⟩, none, none, none], 7, [6], false, 0,
              false⟩ 0 = some c ∧ isEnemy c = true ∧
          0 < (7 : Nat) ∧
          (([6] : List Nat) = [] ∨
            ∃ r, ([6] : List Nat).getLast? = some r ∧ c.rank < r)) := by
  refine ⟨by decide, ?_⟩
  exact (enumerateActions_weapon_fist_spec
    ⟨20, [], [some ⟨Suit.spades, 5⟩, none, none, none], 7, [6], false, 0, false⟩ (by decide) 0).1

lemma any_isSome_false_of_all_none {t : List (Option Card)} (h : ∀ oc ∈ t, oc = none) :
    t.any Option.isSome = false := by
  rw [List.any_eq_false]
  intro oc hoc
  rw [h oc hoc]
  simp

lemma finishInteraction_win_of_empty {s : GameState} (hd : s.deck = [])
    (ht : s.table.any Option.isSome = false) :
    finishInteraction s = (none, some Terminal.win) := by
  unfold finishInteraction afterInteraction
  simp [hd, ht]

/-- Counterexample to claim C6 as stated: with `hp = 5`, an unused
potion allowance and a poison potion as the only remaining card, the
drink-potion action is lethal (`terminal: "dead"`), not a win. -/
theorem poison_last_card_cex :
    (⟨5, [], [some ⟨Suit.hearts, 11⟩, none, none, none], 0, [], false, 0, false⟩ :
        GameState).deck = [] ∧
      isPoisonPotion ⟨Suit.hearts, 11⟩ = true ∧
      slotCard ⟨5, [], [some ⟨Suit.hearts, 11⟩, none, none, none], 0, [], false, 0, false⟩ 0 =
        some ⟨Suit.hearts, 11⟩ ∧
      (∀ oc ∈ ([some ⟨Suit.hearts, 11⟩, none, none, none] :
          List (Option Card)).set 0 none, oc = none) ∧
      applyAction ⟨5, [], [some ⟨Suit.hearts, 11⟩, none, none, none], 0, [], false, 0, false⟩
          (Action.potion 0) =
        (none, some Terminal.dead) := by
  refine ⟨rfl, by decide, by decide, ?_, by decide⟩
  decide

/-- Claim C6, amended: a poison potion consumed as the last card in the
dungeon never triggers the healing-potion bonus win; the outcome is a
win via plain exhaustion through the room-advance rule provided a
potion was already used this room or `hp > 10` — but when no potion was
used this room and `hp ≤ 10`, the poison's 10 damage is lethal and the
outcome is the dead terminal. -/
theorem poison_last_card_amended (s : GameState) (i : Nat) (c : Card)
    (hc : slotCard s i = some c) (hpp : isPoisonPotion c = true)
    (hd : s.deck = []) (hrest : ∀ oc ∈ s.table.set i none, oc = none) :
    isHealingPotion c = false ∧
      ((s.potionUsedThisRoom = true ∨ 10 < s.hp) →
        applyAction s (Action.potion i) = (none, some Terminal.win)) ∧
      (s.potionUsedThisRoom = false → s.hp ≤ 10 →
        applyAction s (Action.potion i) = (none, some Terminal.dead)) := by
  have hheal : isHealingPotion c = false := by
    unfold isPoisonPotion at hpp
    unfold isHealingPotion
    rw [Bool.and_eq_true] at hpp
    rcases hpp with ⟨h1, h2⟩
    rw [decide_eq_true_iff] at h1 h2
    rw [Bool.and_eq_false_iff]
    right
    rw [decide_eq_false_iff_not]
    omega
  have hany : (s.table.set i none).any Option.isSome = false :=
    any_isSome_false_of_all_none hrest
  have hwin : finishInteraction { s with table := s.table.set i none } =
      (none, some Terminal.win) := by
    exact finishInteraction_win_of_empty (by simp [hd]) (by simp [hany])
  have hwin2 : ∀ hpv : Int,
      finishInteraction
          { s with table := s.table.set i none, potionUsedThisRoom := true, hp := hpv } =
        (none, some Terminal.win) := by
    intro hpv
    exact finishInteraction_win_of_empty (by simp [hd]) (by simp [hany])
  refine ⟨hheal, ?_, ?_⟩
  · intro hcase
    simp only [applyAction, cloneState_eq]
    rw [hc]
    simp only [hheal, Bool.and_false, Bool.false_eq_true, if_false]
    rcases hcase with hpu | hhp
    · rw [if_pos hpu]
      exact hwin
    · by_cases hpu : s.potionUsedThisRoom
      · rw [if_pos hpu]
        exact hwin
      · rw [if_neg hpu]
        simp only [hpp, if_true]
        rw [if_neg (by omega)]
        have : max 0 ({ s with table := s.table.set i none, potionUsedThisRoom := true }.hp
            - 10) = s.hp - 10 := by
          simp only
          omega
        rw [this]
        exact hwin2 (s.hp - 10)
  · intro hpu hhp
    simp only [applyAction, cloneState_eq]
    rw [hc]
    simp only [hheal, Bool.and_false, Bool.false_eq_true, if_false]
    rw [if_neg (by simp [hpu])]
    simp only [hpp, if_true]
    rw [if_pos (show max 0 (s.hp - 10) ≤ 0 from max_le (le_refl 0) (by omega))]

/-- Witness for the amended C6 at a concrete input. -/
theorem poison_last_card_amended_witness :
    slotCard ⟨20, [], [none, some ⟨Suit.hearts, 12⟩, none, none], 0, [], false, 1, false⟩ 1 =
        some ⟨Suit.hearts, 12⟩ ∧
      isPoisonPotion ⟨Suit.hearts, 12⟩ = true ∧
      applyAction ⟨20, [], [none, some ⟨Suit.hearts, 12⟩, none, none], 0, [], false, 1, false⟩
          (Action.potion 1) =
        (none, some Terminal.win) := by
  refine ⟨by decide, by decide, ?_⟩
  exact ((poison_last_card_amended
    ⟨20, [], [none, some ⟨Suit.hearts, 12⟩, none, none], 0, [], false, 1, false⟩ 1
    ⟨Suit.hearts, 12⟩ (by decide) (by decide) (by decide) (by decide)).2.1
    (Or.inr (by decide)))

lemma refillStep_length (td : List (Option Card) × List Card) (i : Nat) :
    (refillStep td i).1.length = td.1.length := by
  unfold refillStep
  split <;> simp

lemma refill_length (t : List (Option Card)) (d : List Card) :
    (refill t d).1.length = t.length := by
  unfold refill
  simp only [List.foldl_cons, List.foldl_nil]
  rw [refillStep_length, refillStep_length, refillStep_length, refillStep_length]

lemma afterInteraction_hp_len {s s2 : GameState} {t : Option Terminal}
    (h : afterInteraction s = (s2, t)) :
    s2.hp = s.hp ∧ s2.table.length = s.table.length := by
  unfold afterInteraction at h
  simp only [] at h
  split at h
  · rw [Prod.mk.injEq] at h
    rw [← h.1]
    exact ⟨rfl, rfl⟩
  · split at h
    · rw [Prod.mk.injEq] at h
      rw [← h.1]
      simp [refill_length]
    · rw [Prod.mk.injEq] at h
      rw [← h.1]
      exact ⟨rfl, rfl⟩

lemma finishInteraction_hp_len {s s2 : GameState}
    (h : (finishInteraction s).1 = some s2) :
    s2.hp = s.hp ∧ s2.table.length = s.table.length :=
  afterInteraction_hp_len (finishInteraction_state h)

lemma max0_le_of_le {hpv d : Int} (h20 : hpv ≤ 20) (hd : 0 ≤ d) : max 0 (hpv - d) ≤ 20 := by
  rw [max_le_iff]
  omega

lemma applyAction_hp_table {s : GameState} {a : Action} {s2 : GameState}
    (h : (applyAction s a).1 = some s2)
    (h0 : 0 ≤ s.hp) (h20 : s.hp ≤ 20) (hlen : s.table.length = 4) :
    0 ≤ s2.hp ∧ s2.hp ≤ 20 ∧ s2.table.length = 4 := by
  cases a with
  | flee =>
    simp only [applyAction, cloneState_eq] at h
    simp at h
    rw [← h]
    simp [h0, h20]
  | enemy slot method =>
    simp only [applyAction, cloneState_eq] at h
    rcases hc : slotCard s slot with _ | card
    · rw [hc] at h; simp at h
    · rw [hc] at h
      cases method with
      | weapon =>
        simp only at h
        split at h
        · split at h
          · simp at h
          · rename_i hno
            obtain ⟨hhp, hl⟩ := finishInteraction_hp_len h
            simp only at hhp hl
            rw [List.length_set] at hl
            refine ⟨?_, ?_, by omega⟩
            · rw [hhp]; omega
            · rw [hhp]
              exact max0_le_of_le h20 (le_max_left 0 _)
        · simp at h
      | fist =>
        simp only at h
        split at h
        · simp at h
        · obtain ⟨hhp, hl⟩ := finishInteraction_hp_len h
          simp only at hhp hl
          rw [List.length_set] at hl
          refine ⟨?_, ?_, by omega⟩
          · rw [hhp]; omega
          · rw [hhp]
            exact max0_le_of_le h20 (Int.natCast_nonneg card.rank)
  | weapon slot =>
    simp only [applyAction, cloneState_eq] at h
    rcases hc : slotCard s slot with _ | card
    · rw [hc] at h; simp at h
    · rw [hc] at h
      obtain ⟨hhp, hl⟩ := finishInteraction_hp_len h
      simp only at hhp hl
      rw [List.length_set] at hl
      exact ⟨by omega, by omega, by omega⟩
  | toolkit slot =>
    simp only [applyAction, cloneState_eq] at h
    rcases hc : slotCard s slot with _ | card
    · rw [hc] at h; simp at h
    · rw [hc] at h
      simp only at h
      split at h
      · obtain ⟨hhp, hl⟩ := finishInteraction_hp_len h
        simp only at hhp hl
        rw [List.length_set] at hl
        exact ⟨by omega, by omega, by omega⟩
      · obtain ⟨hhp, hl⟩ := finishInteraction_hp_len h
        simp only at hhp hl
        rw [List.length_set] at hl
        exact ⟨by omega, by omega, by omega⟩
  | potion slot =>
    simp only [applyAction, cloneState_eq] at h
    rcases hc : slotCard s slot with _ | card
    · rw [hc] at h; simp at h
    · rw [hc] at h
      simp only at h
      split at h
      · simp at h
      · split at h
        · obtain ⟨hhp, hl⟩ := finishInteraction_hp_len h
          simp only at hhp hl
          rw [List.length_set] at hl
          exact ⟨by omega, by omega, by omega⟩
        · split at h
          · split at h
            · simp at h
            · obtain ⟨hhp, hl⟩ := finishInteraction_hp_len h
              simp only at hhp hl
              rw [List.length_set] at hl
              refine ⟨?_, ?_, by omega⟩
              · rw [hhp]; omega
              · rw [hhp]
                exact max0_le_of_le h20 (by norm_num)
          · obtain ⟨hhp, hl⟩ := finishInteraction_hp_len h
            simp only at hhp hl
            rw [List.length_set] at hl
            refine ⟨?_, ?_, by omega⟩
            · rw [hhp]
              rw [le_min_iff]
              refine ⟨by norm_num, ?_⟩
              have := Int.natCast_nonneg card.rank
              omega
            · rw [hhp]
              exact min_le_left 20 _

/-- Claim C3: every state reachable from `makeInitialState(deck, inc, 20)`
by `applyAction` steps satisfies `0 ≤ hp ≤ 20` and has a 4-slot table. -/
theorem reachable_hp_bounds_table_len (deck : List Card) (inc : Bool) (s : GameState)
    (h : ReachableState deck inc s) :
    0 ≤ s.hp ∧ s.hp ≤ 20 ∧ s.table.length = 4 := by
  induction h with
  | init =>
    refine ⟨by rw [makeInitialState_hp]; norm_num, by rw [makeInitialState_hp], rfl⟩
  | step hr hstep ih =>
    exact applyAction_hp_table hstep ih.1 ih.2.1 ih.2.2

/-- Witness for C3 at a concrete input. -/
theorem reachable_hp_bounds_table_len_witness :
    ReachableState [⟨Suit.spades, 2⟩] true (makeInitialState [⟨Suit.spades, 2⟩] true 20) ∧
      0 ≤ (makeInitialState [⟨Suit.spades, 2⟩] true 20).hp ∧
      (makeInitialState [⟨Suit.spades, 2⟩] true 20).hp ≤ 20 ∧
      (makeInitialState [⟨Suit.spades, 2⟩] true 20).table.length = 4 :=
  ⟨ReachableState.init, reachable_hp_bounds_table_len [⟨Suit.spades, 2⟩] true _
    ReachableState.init⟩

lemma digitChar_toNat {d : Nat} (hd : d < 10) : (digitChar d).toNat = 48 + d := by
  interval_cases d <;> decide

lemma chVal_digitChar {d : Nat} (hd : d < 10) : chVal (digitChar d) = d := by
  unfold chVal
  rw [digitChar_toNat hd]
  omega

lemma charsVal_append_one (l : List Char) (c : Char) :
    charsVal (l ++ [c]) = charsVal l * 10 + chVal c := by
  unfold charsVal
  rw [List.foldl_append]
  simp

lemma natCharsAux_val : ∀ fuel n, n ≤ fuel → charsVal (natCharsAux fuel n) = n := by
  intro fuel
  induction fuel with
  | zero =>
    intro n hn
    interval_cases n
    simp [natCharsAux, charsVal]
  | succ f ih =>
    intro n hn
    match n with
    | 0 => simp [natCharsAux, charsVal]
    | m + 1 =>
      rw [natCharsAux, charsVal_append_one]
      have hdiv : (m + 1) / 10 ≤ f := by
        have := Nat.div_lt_self (Nat.succ_pos m) (by norm_num : 1 < 10)
        omega
      rw [ih _ hdiv, chVal_digitChar (Nat.mod_lt _ (by norm_num))]
      omega

lemma natChars_val (n : Nat) : charsVal (natChars n) = n := by
  unfold natChars
  split
  · rename_i h
    rw [h]
    decide
  · exact natCharsAux_val n n (le_refl n)

lemma natChars_inj {a b : Nat} (h : natChars a = natChars b) : a = b := by
  have := congrArg charsVal h
  rwa [natChars_val, natChars_val] at this

lemma natCharsAux_digit : ∀ fuel n, ∀ c ∈ natCharsAux fuel n, ∃ d, d < 10 ∧ c = digitChar d := by
  intro fuel
  induction fuel with
  | zero => intro n c hc; simp [natCharsAux] at hc
  | succ f ih =>
    intro n c hc
    match n with
    | 0 => simp [natCharsAux] at hc
    | m + 1 =>
      rw [natCharsAux] at hc
      rcases List.mem_append.mp hc with hc | hc
      · exact ih _ c hc
      · rw [List.mem_singleton] at hc
        exact ⟨(m + 1) % 10, Nat.mod_lt _ (by norm_num), hc⟩

lemma natChars_digit {n : Nat} {c : Char} (hc : c ∈ natChars n) :
    ∃ d, d < 10 ∧ c = digitChar d := by
  unfold natChars at hc
  split at hc
  · rw [List.mem_singleton] at hc
    exact ⟨0, by norm_num, hc⟩
  · exact natCharsAux_digit n n c hc

lemma natChars_toNat_bounds {n : Nat} {c : Char} (hc : c ∈ natChars n) :
    48 ≤ c.toNat ∧ c.toNat ≤ 57 := by
  obtain ⟨d, hd, rfl⟩ := natChars_digit hc
  rw [digitChar_toNat hd]
  omega

lemma natChars_ne_nil (n : Nat) : natChars n ≠ [] := by
  unfold natChars
  split
  · simp
  · rename_i h
    match n, h with
    | m + 1, _ => rw [natCharsAux]; simp

lemma not_mem_natChars_of_toNat {sep : Char} (hsep : sep.toNat < 48 ∨ 57 < sep.toNat)
    (n : Nat) : sep ∉ natChars n := by
  intro hmem
  have := natChars_toNat_bounds hmem
  omega

lemma intChars_toNat_bounds {i : Int} {c : Char} (hc : c ∈ intChars i) :
    c.toNat = 45 ∨ 48 ≤ c.toNat ∧ c.toNat ≤ 57 := by
  unfold intChars at hc
  split at hc
  · rcases List.mem_cons.mp hc with rfl | hc
    · left; decide
    · right; exact natChars_toNat_bounds hc
  · right; exact natChars_toNat_bounds hc

lemma intChars_inj {a b : Int} (h : intChars a = intChars b) : a = b := by
  unfold intChars at h
  split at h <;> split at h
  · rename_i ha hb
    rw [List.cons.injEq] at h
    have := natChars_inj h.2
    omega
  · rename_i ha hb
    exfalso
    match hm : natChars b.toNat, h with
    | c :: tl, h2 =>
      rw [List.cons.injEq] at h2
      have hb2 := natChars_toNat_bounds (hm ▸ List.mem_cons_self c tl)
      rw [← h2.1] at hb2
      revert hb2
      decide
  · rename_i ha hb
    exfalso
    match hm : natChars a.toNat, h with
    | c :: tl, h2 =>
      rw [List.cons.injEq] at h2
      have ha2 := natChars_toNat_bounds (hm ▸ List.mem_cons_self c tl)
      rw [h2.1] at ha2
      revert ha2
      decide
  · rename_i ha hb
    have := natChars_inj h
    omega

lemma mem_joinSep {sep : Char} {c : Char} :
    ∀ l : List (List Char), c ∈ joinSep sep l → c = sep ∨ ∃ x ∈ l, c ∈ x := by
  intro l
  induction l with
  | nil => intro h; simp [joinSep] at h
  | cons x xs ih =>
    intro h
    match xs with
    | [] =>
      right
      exact ⟨x, List.mem_cons_self x _, h⟩
    | y :: ys =>
      rw [joinSep] at h
      rcases List.mem_append.mp h with h | h
      · right; exact ⟨x, List.mem_cons_self x _, h⟩
      · rcases List.mem_cons.mp h with rfl | h
        · left; rfl
        · rcases ih h with h | ⟨z, hz, hcz⟩
          · left; exact h
          · right; exact ⟨z, List.mem_cons_of_mem x hz, hcz⟩

lemma tokens_unique {sep : Char} :
    ∀ (a1 a2 r1 r2 : List Char), sep ∉ a1 → sep ∉ a2 →
      a1 ++ sep :: r1 = a2 ++ sep :: r2 → a1 = a2 ∧ r1 = r2 := by
  intro a1
  induction a1 with
  | nil =>
    intro a2 r1 r2 h1 h2 heq
    match a2 with
    | [] => simp at heq; simp [heq]
    | c :: a2t =>
      exfalso
      rw [List.nil_append, List.cons_append, List.cons.injEq] at heq
      exact h2 (heq.1 ▸ List.mem_cons_self c a2t)
  | cons c1 a1t ih =>
    intro a2 r1 r2 h1 h2 heq
    match a2 with
    | [] =>
      exfalso
      rw [List.nil_append, List.cons_append, List.cons.injEq] at heq
      exact h1 (heq.1 ▸ List.mem_cons_self c1 a1t)
    | c2 :: a2t =>
      rw [List.cons_append, List.cons_append, List.cons.injEq] at heq
      have := ih a2t r1 r2 (fun hm => h1 (List.mem_cons_of_mem c1 hm))
        (fun hm => h2 (List.mem_cons_of_mem c2 hm)) heq.2
      exact ⟨by rw [heq.1, this.1], this.2⟩

lemma joinSep_inj_len {sep : Char} :
    ∀ (l1 l2 : List (List Char)), l1.length = l2.length →
      (∀ x ∈ l1, sep ∉ x) → (∀ x ∈ l2, sep ∉ x) →
      joinSep sep l1 = joinSep sep l2 → l1 = l2 := by
  intro l1
  induction l1 with
  | nil =>
    intro l2 hlen _ _ _
    match l2 with
    | [] => rfl
  | cons x xs ih =>
    intro l2 hlen hf1 hf2 heq
    match l2 with
    | y :: ys =>
      match xs, ys with
      | [], [] =>
        rw [joinSep, joinSep] at heq
        rw [heq]
      | x2 :: xs2, y2 :: ys2 =>
        rw [joinSep, joinSep] at heq
        have := tokens_unique x y (joinSep sep (x2 :: xs2)) (joinSep sep (y2 :: ys2))
          (hf1 x (List.mem_cons_self x _)) (hf2 y (List.mem_cons_self y _)) heq
        have ht := ih (y2 :: ys2) (by simp at hlen ⊢; omega)
          (fun z hz => hf1 z (List.mem_cons_of_mem x hz))
          (fun z hz => hf2 z (List.mem_cons_of_mem y hz)) this.2
        rw [this.1, ht]
      | [], y2 :: ys2 => simp at hlen
      | x2 :: xs2, [] => simp at hlen

lemma joinSep_inj_ne {sep : Char} :
    ∀ (l1 l2 : List (List Char)),
      (∀ x ∈ l1, x ≠ [] ∧ sep ∉ x) → (∀ x ∈ l2, x ≠ [] ∧ sep ∉ x) →
      joinSep sep l1 = joinSep sep l2 → l1 = l2 := by
  intro l1
  induction l1 with
  | nil =>
    intro l2 _ hf2 heq
    match l2 with
    | [] => rfl
    | y :: ys =>
      exfalso
      rw [joinSep] at heq
      match ys with
      | [] =>
        exact (hf2 y (List.mem_cons_self y _)).1 (by rw [joinSep] at heq; exact heq.symm)
      | y2 :: ys2 =>
        rw [joinSep] at heq
        have : y = [] := by
          rcases List.append_eq_nil.mp heq.symm with ⟨h1, _⟩
          exact h1
        exact (hf2 y (List.mem_cons_self y _)).1 this
  | cons x xs ih =>
    intro l2 hf1 hf2 heq
    match l2 with
    | [] =>
      exfalso
      match xs with
      | [] =>
        rw [joinSep, joinSep] at heq
        exact (hf1 x (List.mem_cons_self x _)).1 heq
      | x2 :: xs2 =>
        rw [joinSep, joinSep] at heq
        have : x = [] := by
          rcases List.append_eq_nil.mp heq with ⟨h1, _⟩
          exact h1
        exact (hf1 x (List.mem_cons_self x _)).1 this
    | y :: ys =>
      match xs, ys with
      | [], [] =>
        rw [joinSep, joinSep] at heq
        rw [heq]
      | [], y2 :: ys2 =>
        exfalso
        rw [joinSep, joinSep] at heq
        have : sep ∈ x := by
          rw [heq]
          exact List.mem_append.mpr (Or.inr (List.mem_cons_self sep _))
        exact (hf1 x (List.mem_cons_self x _)).2 this
      | x2 :: xs2, [] =>
        exfalso
        rw [joinSep, joinSep] at heq
        have : sep ∈ y := by
          rw [← heq]
          exact List.mem_append.mpr (Or.inr (List.mem_cons_self sep _))
        exact (hf2 y (List.mem_cons_self y _)).2 this
      | x2 :: xs2, y2 :: ys2 =>
        rw [joinSep, joinSep] at heq
        have := tokens_unique x y (joinSep sep (x2 :: xs2)) (joinSep sep (y2 :: ys2))
          (hf1 x (List.mem_cons_self x _)).2 (hf2 y (List.mem_cons_self y _)).2 heq
        have ht := ih (y2 :: ys2)
          (fun z hz => hf1 z (List.mem_cons_of_mem x hz))
          (fun z hz => hf2 z (List.mem_cons_of_mem y hz)) this.2
        rw [this.1, ht]

lemma map_inj_on {α β : Type} {f : α → β} (P : α → Prop)
    (hf : ∀ a b, P a → P b → f a = f b → a = b) :
    ∀ (l1 l2 : List α), (∀ x ∈ l1, P x) → (∀ x ∈ l2, P x) →
      l1.map f = l2.map f → l1 = l2 := by
  intro l1
  induction l1 with
  | nil =>
    intro l2 _ _ h
    match l2 with
    | [] => rfl
    | y :: ys => simp at h
  | cons x xs ih =>
    intro l2 h1 h2 h
    match l2 with
    | [] => simp at h
    | y :: ys =>
      rw [List.map_cons, List.map_cons, List.cons.injEq] at h
      have hx := hf x y (h1 x (List.mem_cons_self x _)) (h2 y (List.mem_cons_self y _)) h.1
      have ht := ih ys (fun z hz => h1 z (List.mem_cons_of_mem x hz))
        (fun z hz => h2 z (List.mem_cons_of_mem y hz)) h.2
      rw [hx, ht]

lemma suitIdx_inj {a b : Suit} (h : suitIdx a = suitIdx b) : a = b := by
  cases a <;> cases b <;> simp [suitIdx] at h ⊢

lemma suitIdx_le (su : Suit) : suitIdx su ≤ 3 := by
  cases su <;> simp [suitIdx]

lemma encodeCard_some_inj {c1 c2 : Card} (h1 : ValidCard c1) (h2 : ValidCard c2)
    (h : encodeCard (some c1) = encodeCard (some c2)) : c1 = c2 := by
  simp only [encodeCard] at h
  obtain ⟨hl1, hr1⟩ := h1
  obtain ⟨hl2, hr2⟩ := h2
  have hi1 := suitIdx_le c1.suit
  have hi2 := suitIdx_le c2.suit
  have hrank : c1.rank = c2.rank := by omega
  have hsuit : suitIdx c1.suit = suitIdx c2.suit := by omega
  obtain ⟨su1, r1⟩ := c1
  obtain ⟨su2, r2⟩ := c2
  simp at hrank hsuit ⊢
  exact ⟨suitIdx_inj hsuit, hrank⟩

lemma encodeCard_some_pos {c : Card} (h : ValidCard c) : 2 ≤ encodeCard (some c) := by
  simp only [encodeCard]
  obtain ⟨hl, _⟩ := h
  have := suitIdx_le c.suit
  omega

lemma encodeCardOpt_inj {o1 o2 : Option Card}
    (h1 : ∀ c, o1 = some c → ValidCard c) (h2 : ∀ c, o2 = some c → ValidCard c)
    (h : encodeCard o1 = encodeCard o2) : o1 = o2 := by
  match o1, o2 with
  | none, none => rfl
  | none, some c =>
    exfalso
    have := encodeCard_some_pos (h2 c rfl)
    rw [← h] at this
    simp [encodeCard] at this
  | some c, none =>
    exfalso
    have := encodeCard_some_pos (h1 c rfl)
    rw [h] at this
    simp [encodeCard] at this
  | some c1, some c2 =>
    rw [encodeCard_some_inj (h1 c1 rfl) (h2 c2 rfl) h]

lemma colon_not_mem_natChars (n : Nat) : Char.ofNat 58 ∉ natChars n :=
  not_mem_natChars_of_toNat (by decide) n

lemma colon_not_mem_intChars (i : Int) : Char.ofNat 58 ∉ intChars i := by
  intro h
  rcases intChars_toNat_bounds h with h | h
  · revert h; decide
  · rcases h with ⟨h1, h2⟩
    revert h2; decide

lemma colon_not_mem_join_natChars {sep : Char} (hsep : sep ≠ Char.ofNat 58)
    (l : List (List Char)) (hl : ∀ x ∈ l, ∃ n, x = natChars n) :
    Char.ofNat 58 ∉ joinSep sep l := by
  intro h
  rcases mem_joinSep l h with h | ⟨x, hx, hcx⟩
  · exact hsep h.symm
  · obtain ⟨n, rfl⟩ := hl x hx
    exact colon_not_mem_natChars n hcx

lemma bitChars_inj {b1 b2 : Bool}
    (h : (if b1 then [Char.ofNat 49] else [Char.ofNat 48]) =
      (if b2 then [Char.ofNat 49] else [Char.ofNat 48])) : b1 = b2 := by
  cases b1 <;> cases b2
  · rfl
  · exact absurd h (by decide)
  · exact absurd h (by decide)
  · rfl

lemma killsChars_inj {l1 l2 : List Nat}
    (h : joinSep (Char.ofNat 46) (l1.map natChars) = joinSep (Char.ofNat 46) (l2.map natChars)) :
    l1 = l2 := by
  have hmap := joinSep_inj_ne (l1.map natChars) (l2.map natChars)
    (by
      intro x hx
      obtain ⟨n, _, rfl⟩ := List.mem_map.mp hx
      exact ⟨natChars_ne_nil n, not_mem_natChars_of_toNat (by decide) n⟩)
    (by
      intro x hx
      obtain ⟨n, _, rfl⟩ := List.mem_map.mp hx
      exact ⟨natChars_ne_nil n, not_mem_natChars_of_toNat (by decide) n⟩) h
  exact map_inj_on (fun _ => True) (fun a b _ _ hab => natChars_inj hab) l1 l2
    (fun _ _ => trivial) (fun _ _ => trivial) hmap

lemma tableChars_inj {l1 l2 : List (Option Card)}
    (h1 : ∀ c : Card, some c ∈ l1 → ValidCard c) (h2 : ∀ c : Card, some c ∈ l2 → ValidCard c)
    (h : joinSep (Char.ofNat 44) (l1.map fun oc => natChars (encodeCard oc)) =
      joinSep (Char.ofNat 44) (l2.map fun oc => natChars (encodeCard oc))) :
    l1 = l2 := by
  have hmap := joinSep_inj_ne
    (l1.map fun oc => natChars (encodeCard oc)) (l2.map fun oc => natChars (encodeCard oc))
    (by
      intro x hx
      obtain ⟨oc, _, rfl⟩ := List.mem_map.mp hx
      exact ⟨natChars_ne_nil _, not_mem_natChars_of_toNat (by decide) _⟩)
    (by
      intro x hx
      obtain ⟨oc, _, rfl⟩ := List.mem_map.mp hx
      exact ⟨natChars_ne_nil _, not_mem_natChars_of_toNat (by decide) _⟩) h
  exact map_inj_on (fun oc => ∀ c, oc = some c → ValidCard c)
    (fun a b ha hb hab => encodeCardOpt_inj ha hb (natChars_inj hab)) l1 l2
    (fun oc hoc c hc => h1 c (hc ▸ hoc)) (fun oc hoc c hc => h2 c (hc ▸ hoc)) hmap

lemma deckChars_inj {l1 l2 : List Card}
    (h1 : ∀ c ∈ l1, ValidCard c) (h2 : ∀ c ∈ l2, ValidCard c)
    (h : joinSep (Char.ofNat 44) (l1.map fun c => natChars (encodeCard (some c))) =
      joinSep (Char.ofNat 44) (l2.map fun c => natChars (encodeCard (some c)))) :
    l1 = l2 := by
  have hmap := joinSep_inj_ne
    (l1.map fun c => natChars (encodeCard (some c)))
    (l2.map fun c => natChars (encodeCard (some c)))
    (by
      intro x hx
      obtain ⟨c, _, rfl⟩ := List.mem_map.mp hx
      exact ⟨natChars_ne_nil _, not_mem_natChars_of_toNat (by decide) _⟩)
    (by
      intro x hx
      obtain ⟨c, _, rfl⟩ := List.mem_map.mp hx
      exact ⟨natChars_ne_nil _, not_mem_natChars_of_toNat (by decide) _⟩) h
  exact map_inj_on ValidCard
    (fun a b ha hb hab => encodeCard_some_inj ha hb (natChars_inj hab)) l1 l2 h1 h2 hmap

/-- Claim C5: on well-formed states (4-slot table, cards from the
52-card space), `stateKey` is injective: two states produce the same
key iff they agree on every tracked field, i.e. iff they are equal
(`stateKey` is a function, so a single state never produces two
different keys). -/
theorem stateKey_injective_iff (s1 s2 : GameState) (h1 : WFState s1) (h2 : WFState s2) :
    stateKey s1 = stateKey s2 ↔ s1 = s2 := by
  constructor
  · intro h
    obtain ⟨hlen1, htab1, hdeck1⟩ := h1
    obtain ⟨hlen2, htab2, hdeck2⟩ := h2
    unfold stateKey at h
    simp only [] at h
    rw [String.ext_iff] at h
    simp only [] at h
    have hfree : ∀ (s : GameState),
        ∀ x ∈ [intChars s.hp,
          natChars s.weaponRank,
          if s.potionUsedThisRoom then [Char.ofNat 49] else [Char.ofNat 48],
          natChars s.interactionsThisRoom,
          if s.fledLastRoom then [Char.ofNat 49] else [Char.ofNat 48],
          joinSep (Char.ofNat 46) (s.weaponKills.map natChars),
          [Char.ofNat 124],
          joinSep (Char.ofNat 44) (s.table.map fun oc => natChars (encodeCard oc)),
          [Char.ofNat 124],
          joinSep (Char.ofNat 44) (s.deck.map fun c => natChars (encodeCard (some c)))],
          Char.ofNat 58 ∉ x := by
      intro s x hx
      simp only [List.mem_cons, List.not_mem_nil, or_false] at hx
      rcases hx with rfl | rfl | rfl | rfl | rfl | rfl | rfl | rfl | rfl | rfl
      · exact colon_not_mem_intChars s.hp
      · exact colon_not_mem_natChars s.weaponRank
      · split <;> decide
      · exact colon_not_mem_natChars s.interactionsThisRoom
      · split <;> decide
      · exact colon_not_mem_join_natChars (by decide) _
          (by intro x hx; obtain ⟨n, _, rfl⟩ := List.mem_map.mp hx; exact ⟨n, rfl⟩)
      · decide
      · exact colon_not_mem_join_natChars (by decide) _
          (by intro x hx; obtain ⟨oc, _, rfl⟩ := List.mem_map.mp hx; exact ⟨encodeCard oc, rfl⟩)
      · decide
      · exact colon_not_mem_join_natChars (by decide) _
          (by intro x hx; obtain ⟨c, _, rfl⟩ := List.mem_map.mp hx
              exact ⟨encodeCard (some c), rfl⟩)
    have hlists := joinSep_inj_len _ _ (by rfl) (hfree s1) (hfree s2) h
    simp only [List.cons.injEq, and_true] at hlists
    obtain ⟨e1, e2, e3, e4, e5, e6, _, e8, _, e10⟩ := hlists
    obtain ⟨hp1, deck1, table1, wr1, wk1, pu1, ir1, fl1⟩ := s1
    obtain ⟨hp2, deck2, table2, wr2, wk2, pu2, ir2, fl2⟩ := s2
    simp only at e1 e2 e3 e4 e5 e6 e8 e10 htab1 htab2 hdeck1 hdeck2
    simp only [GameState.mk.injEq]
    exact ⟨intChars_inj e1, deckChars_inj hdeck1 hdeck2 e10,
      tableChars_inj htab1 htab2 e8, natChars_inj e2, killsChars_inj e6,
      bitChars_inj e3, natChars_inj e4, bitChars_inj e5⟩
  · intro h
    rw [h]

/-- Witness for C5 at concrete inputs: two field-identical states share
a key; the key determines every tracked field. -/
theorem stateKey_injective_iff_witness :
    WFState ⟨20, [⟨Suit.clubs, 3⟩], [some ⟨Suit.hearts, 5⟩, none, none, none], 4, [7], false,
        1, true⟩ ∧
      WFState ⟨19, [⟨Suit.clubs, 3⟩], [some ⟨Suit.hearts, 5⟩, none, none, none], 4, [7], false,
        1, true⟩ ∧
      ((stateKey ⟨20, [⟨Suit.clubs, 3⟩], [some ⟨Suit.hearts, 5⟩, none, none, none], 4, [7],
          false, 1, true⟩ =
        stateKey ⟨19, [⟨Suit.clubs, 3⟩], [some ⟨Suit.hearts, 5⟩, none, none, none], 4, [7],
          false, 1, true⟩) ↔
        (⟨20, [⟨Suit.clubs, 3⟩], [some ⟨Suit.hearts, 5⟩, none, none, none], 4, [7], false, 1,
            true⟩ :
          GameState) =
        ⟨19, [⟨Suit.clubs, 3⟩], [some ⟨Suit.hearts, 5⟩, none, none, none], 4, [7], false, 1,
          true⟩) := by
  have hwf1 : WFState ⟨20, [⟨Suit.clubs, 3⟩], [some ⟨Suit.hearts, 5⟩, none, none, none], 4,
      [7], false, 1, true⟩ := by
    refine ⟨rfl, ?_, ?_⟩
    · intro c hc
      simp only [List.mem_cons, List.not_mem_nil, or_false] at hc
      rcases hc with hc | hc | hc | hc
      · injection hc with hc2
        rw [hc2]
        exact ⟨by norm_num, by norm_num⟩
      · exact absurd hc (by simp)
      · exact absurd hc (by simp)
      · exact absurd hc (by simp)
    · intro c hc
      simp only [List.mem_cons, List.not_mem_nil, or_false] at hc
      rw [hc]
      exact ⟨by norm_num, by norm_num⟩
  have hwf2 : WFState ⟨19, [⟨Suit.clubs, 3⟩], [some ⟨Suit.hearts, 5⟩, none, none, none], 4,
      [7], false, 1, true⟩ := by
    refine ⟨rfl, ?_, ?_⟩
    · intro c hc
      simp only [List.mem_cons, List.not_mem_nil, or_false] at hc
      rcases hc with hc | hc | hc | hc
      · injection hc with hc2
        rw [hc2]
        exact ⟨by norm_num, by norm_num⟩
      · exact absurd hc (by simp)
      · exact absurd hc (by simp)
      · exact absurd hc (by simp)
    · intro c hc
      simp only [List.mem_cons, List.not_mem_nil, or_false] at hc
      rw [hc]
      exact ⟨by norm_num, by norm_num⟩
  exact ⟨hwf1, hwf2, stateKey_injective_iff _ _ hwf1 hwf2⟩

lemma drawTop_mem {d : List Card} {c : Card} (h : (drawTop d).1 = some c) : c ∈ d :=
  List.mem_of_mem_getLast? h

lemma drawTop_sub {d : List Card} {c : Card} (h : c ∈ (drawTop d).2) : c ∈ d :=
  List.mem_of_mem_dropLast h

lemma unshift_fold_mem (t : List (Option Card)) :
    ∀ (idxs : List Nat) (d : List Card) (c : Card),
      c ∈ idxs.foldl
        (fun dd i =>
          match t.get? i with
          | some (some x) => x :: dd
          | _ => dd) d →
      some c ∈ t ∨ c ∈ d := by
  intro idxs
  induction idxs with
  | nil => intro d c h; exact Or.inr h
  | cons i rest ih =>
    intro d c h
    rw [List.foldl_cons] at h
    rcases ih _ c h with h2 | h2
    · exact Or.inl h2
    · rcases hg : t.get? i with _ | oc
      · rw [hg] at h2; exact Or.inr h2
      · rcases oc with _ | x
        · rw [hg] at h2; exact Or.inr h2
        · rw [hg] at h2
          rcases List.mem_cons.mp h2 with rfl | h2
          · exact Or.inl (List.get?_mem hg)
          · exact Or.inr h2

lemma fleeReturn_mem {t : List (Option Card)} {d : List Card} {c : Card}
    (h : c ∈ fleeReturn t d) : some c ∈ t ∨ c ∈ d := by
  unfold fleeReturn at h
  exact unshift_fold_mem t [3, 2, 1, 0] d c h

lemma unshift_fold_len_ge (t : List (Option Card)) :
    ∀ (idxs : List Nat) (d : List Card),
      d.length ≤ (idxs.foldl
        (fun dd i =>
          match t.get? i with
          | some (some x) => x :: dd
          | _ => dd) d).length := by
  intro idxs
  induction idxs with
  | nil => intro d; exact le_refl _
  | cons i rest ih =>
    intro d
    rw [List.foldl_cons]
    refine le_trans ?_ (ih _)
    rcases hg : t.get? i with _ | oc
    · simp
    · rcases oc with _ | x
      · simp
      · simp

lemma unshift_fold_len_lt (t : List (Option Card)) :
    ∀ (idxs : List Nat) (d : List Card) (i : Nat) (c : Card),
      i ∈ idxs → t.get? i = some (some c) →
      d.length < (idxs.foldl
        (fun dd j =>
          match t.get? j with
          | some (some x) => x :: dd
          | _ => dd) d).length := by
  intro idxs
  induction idxs with
  | nil => intro d i c h; simp at h
  | cons j rest ih =>
    intro d i c hmem hg
    rw [List.foldl_cons]
    rcases List.mem_cons.mp hmem with rfl | hmem
    · rw [hg]
      exact lt_of_lt_of_le (by simp : d.length < (c :: d).length)
        (unshift_fold_len_ge t rest (c :: d))
    · refine lt_of_le_of_lt ?_ (ih _ i c hmem hg)
      rcases hg2 : t.get? j with _ | oc
      · simp
      · rcases oc with _ | x
        · simp
        · simp

lemma fleeReturn_ne_nil {t : List (Option Card)} (d : List Card)
    (hlen : t.length = 4) (hany : t.any Option.isSome = true) : fleeReturn t d ≠ [] := by
  rw [List.any_eq_true] at hany
  obtain ⟨oc, hoc, hsome⟩ := hany
  obtain ⟨c, rfl⟩ := Option.isSome_iff_exists.mp hsome
  obtain ⟨j, hj⟩ := List.mem_iff_get?.mp hoc
  have hj4 : j < 4 := by
    have := (List.get?_eq_some.mp hj).1
    omega
  have hjmem : j ∈ [3, 2, 1, 0] := by
    interval_cases j <;> decide
  intro hnil
  have := unshift_fold_len_lt t [3, 2, 1, 0] d j c hjmem hj
  unfold fleeReturn at hnil
  rw [hnil] at this
  simp at this

lemma refillStep_sub {td : List (Option Card) × List Card} {i : Nat} {c : Card}
    (h : c ∈ (refillStep td i).2) : c ∈ td.2 := by
  unfold refillStep at h
  split at h
  · exact List.mem_of_mem_dropLast h
  · exact h

lemma refillStep_mem1 {td : List (Option Card) × List Card} {i : Nat} {oc : Option Card}
    (h : oc ∈ (refillStep td i).1) : oc ∈ td.1 ∨ ∃ c ∈ td.2, oc = some c := by
  unfold refillStep at h
  split at h
  · rename_i hcond
    rcases List.mem_or_eq_of_mem_set h with h2 | h2
    · exact Or.inl h2
    · rcases hg : td.2.getLast? with _ | c
      · exact absurd (List.getLast?_eq_none_iff.mp hg) hcond.2
      · rw [hg] at h2
        exact Or.inr ⟨c, List.mem_of_mem_getLast? hg, h2⟩
  · exact Or.inl h

lemma refill_fold_mem :
    ∀ (idxs : List Nat) (td : List (Option Card) × List Card),
      (∀ oc ∈ (idxs.foldl refillStep td).1, oc ∈ td.1 ∨ ∃ c ∈ td.2, oc = some c) ∧
        ∀ c ∈ (idxs.foldl refillStep td).2, c ∈ td.2 := by
  intro idxs
  induction idxs with
  | nil => intro td; exact ⟨fun oc h => Or.inl h, fun c h => h⟩
  | cons i rest ih =>
    intro td
    rw [List.foldl_cons]
    obtain ⟨ih1, ih2⟩ := ih (refillStep td i)
    constructor
    · intro oc h
      rcases ih1 oc h with h2 | ⟨c, hc, rfl⟩
      · rcases refillStep_mem1 h2 with h3 | ⟨c, hc, rfl⟩
        · exact Or.inl h3
        · exact Or.inr ⟨c, hc, rfl⟩
      · exact Or.inr ⟨c, refillStep_sub hc, rfl⟩
    · intro c h
      exact refillStep_sub (ih2 c h)

lemma refill_mem1 {t : List (Option Card)} {d : List Card} {oc : Option Card}
    (h : oc ∈ (refill t d).1) : oc ∈ t ∨ ∃ c ∈ d, oc = some c :=
  (refill_fold_mem [0, 1, 2, 3] (t, d)).1 oc h

lemma refill_mem2 {t : List (Option Card)} {d : List Card} {c : Card}
    (h : c ∈ (refill t d).2) : c ∈ d :=
  (refill_fold_mem [0, 1, 2, 3] (t, d)).2 c h

lemma refillStep_any {td : List (Option Card) × List Card} {i : Nat}
    (h : td.1.any Option.isSome = true) :
    ((refillStep td i).1.any Option.isSome) = true := by
  unfold refillStep
  split
  · rename_i hcond
    rcases hg : td.2.getLast? with _ | c
    · exact absurd (List.getLast?_eq_none_iff.mp hg) hcond.2
    · have hi : i < td.1.length := (List.get?_eq_some.mp hcond.1).1
      have hget : (td.1.set i (some c)).get? i = some (some c) :=
        List.get?_set_eq_of_lt (some c) hi
      rw [List.any_eq_true]
      exact ⟨some c, List.get?_mem hget, rfl⟩
  · exact h

lemma refill_fold_any :
    ∀ (idxs : List Nat) (td : List (Option Card) × List Card),
      td.1.any Option.isSome = true →
      ((idxs.foldl refillStep td).1.any Option.isSome) = true := by
  intro idxs
  induction idxs with
  | nil => intro td h; exact h
  | cons i rest ih =>
    intro td h
    rw [List.foldl_cons]
    exact ih _ (refillStep_any h)

lemma refill_any_of_first_slot {t : List (Option Card)} {d : List Card}
    (h0 : t.get? 0 = some none) (hd : d ≠ []) :
    ((refill t d).1.any Option.isSome) = true := by
  unfold refill
  rw [show ([0, 1, 2, 3] : List Nat) = 0 :: [1, 2, 3] from rfl, List.foldl_cons]
  refine refill_fold_any [1, 2, 3] (refillStep (t, d) 0) ?_
  unfold refillStep
  rw [if_pos ⟨h0, hd⟩]
  rcases hg : d.getLast? with _ | c
  · exact absurd (List.getLast?_eq_none_iff.mp hg) hd
  · have hi : (0 : Nat) < t.length := (List.get?_eq_some.mp h0).1
    have hget : (t.set 0 (some c)).get? 0 = some (some c) :=
      List.get?_set_eq_of_lt (some c) hi
    rw [List.any_eq_true]
    exact ⟨some c, List.get?_mem hget, rfl⟩

lemma isWinState_false_of {s : GameState}
    (h : s.table.any Option.isSome = true ∨ s.deck ≠ []) : isWinState s = false := by
  unfold isWinState
  rcases h with h | h
  · rw [h]
    simp
  · rw [Bool.and_eq_false_iff]
    left
    rw [Bool.and_eq_false_iff]
    right
    rcases hd : s.deck with _ | ⟨c, d⟩
    · exact absurd hd h
    · rfl

lemma afterInteraction_not_win {s s2 : GameState} (hlen : s.table.length = 4)
    (h : afterInteraction s = (s2, none)) : isWinState s2 = false := by
  unfold afterInteraction at h
  simp only [] at h
  split at h
  · simp at h
  · rename_i hc1
    split at h
    · rw [Prod.mk.injEq] at h
      rcases hany : s.table.any Option.isSome with _ | _
      · have hd : s.deck ≠ [] := by
          intro hnil
          rw [Bool.and_eq_true] at hc1
          refine hc1 ⟨?_, ?_⟩
          · rw [hnil]; rfl
          · rw [hany]; rfl
        have h0 : s.table.get? 0 = some none := by
          have h04 : 0 < s.table.length := by omega
          rcases hg : s.table.get? 0 with _ | oc
          · rw [List.get?_eq_none] at hg
            omega
          · have hmem := List.get?_mem hg
            rw [List.any_eq_false] at hany
            have := hany oc hmem
            rcases oc with _ | c
            · rfl
            · simp at this
        apply isWinState_false_of
        left
        rw [← h.1]
        exact refill_any_of_first_slot h0 hd
      · apply isWinState_false_of
        left
        rw [← h.1]
        exact refill_fold_any [0, 1, 2, 3] (s.table, s.deck) hany
    · rename_i hc2
      rw [Prod.mk.injEq] at h
      apply isWinState_false_of
      left
      rw [← h.1]
      show s.table.any Option.isSome = true
      rcases hany : s.table.any Option.isSome with _ | _
      · exfalso
        apply hc2
        rw [hany]
        simp
      · rfl

lemma flee_not_mem_slotActions (s : GameState) (j : Nat) :
    Action.flee ∉ slotActions s j := by
  intro h
  unfold slotActions at h
  rcases hc : slotCard s j with _ | card
  · rw [hc] at h
    simp at h
  · rw [hc] at h
    simp only at h
    split at h
    · rcases List.mem_append.mp h with h2 | h2
      · simp at h2
      · split at h2 <;> simp at h2
    · split at h
      · simp at h
      · split at h
        · simp at h
        · split at h
          · simp at h
          · simp at h

lemma flee_enumerated_any {s : GameState} (hmem : Action.flee ∈ enumerateActions s) :
    s.table.any Option.isSome = true := by
  unfold enumerateActions at hmem
  rcases List.mem_append.mp hmem with h | h
  · split at h
    · rename_i hcond
      rw [Bool.and_eq_true] at hcond
      rw [Bool.and_eq_true] at hcond
      have := hcond.2
      rcases hany : s.table.any Option.isSome with _ | _
      · rw [hany] at this
        simp at this
      · rfl
    · simp at h
  · exfalso
    rw [List.mem_flatMap] at h
    obtain ⟨j, _, hj⟩ := h
    exact flee_not_mem_slotActions s j hj

lemma applyAction_not_win {s : GameState} {a : Action} {s2 : GameState}
    (hlen : s.table.length = 4) (hmem : a ∈ enumerateActions s)
    (h : (applyAction s a).1 = some s2) : isWinState s2 = false := by
  cases a with
  | flee =>
    have hany := flee_enumerated_any hmem
    simp only [applyAction, cloneState_eq] at h
    simp at h
    have hne := fleeReturn_ne_nil s.deck hlen hany
    apply isWinState_false_of
    left
    rw [← h]
    simp only []
    rcases hg : (fleeReturn s.table s.deck).getLast? with _ | c
    · exact absurd (List.getLast?_eq_none_iff.mp hg) hne
    · rw [List.any_eq_true]
      refine ⟨some c, ?_, rfl⟩
      rw [show (drawTop (fleeReturn s.table s.deck)).1 = some c from hg]
      exact List.mem_cons_self _ _
  | enemy slot method =>
    simp only [applyAction, cloneState_eq] at h
    rcases hc : slotCard s slot with _ | card
    · rw [hc] at h; simp at h
    · rw [hc] at h
      cases method with
      | weapon =>
        simp only at h
        split at h
        · split at h
          · simp at h
          · exact afterInteraction_not_win (by simp [List.length_set, hlen])
              (finishInteraction_state h)
        · simp at h
      | fist =>
        simp only at h
        split at h
        · simp at h
        · exact afterInteraction_not_win (by simp [List.length_set, hlen])
            (finishInteraction_state h)
  | weapon slot =>
    simp only [applyAction, cloneState_eq] at h
    rcases hc : slotCard s slot with _ | card
    · rw [hc] at h; simp at h
    · rw [hc] at h
      exact afterInteraction_not_win (by simp [List.length_set, hlen])
        (finishInteraction_state h)
  | toolkit slot =>
    simp only [applyAction, cloneState_eq] at h
    rcases hc : slotCard s slot with _ | card
    · rw [hc] at h; simp at h
    · rw [hc] at h
      simp only at h
      split at h
      · exact afterInteraction_not_win (by simp [List.length_set, hlen])
          (finishInteraction_state h)
      · exact afterInteraction_not_win (by simp [List.length_set, hlen])
          (finishInteraction_state h)
  | potion slot =>
    simp only [applyAction, cloneState_eq] at h
    rcases hc : slotCard s slot with _ | card
    · rw [hc] at h; simp at h
    · rw [hc] at h
      simp only at h
      split at h
      · simp at h
      · split at h
        · exact afterInteraction_not_win (by simp [List.length_set, hlen])
            (finishInteraction_state h)
        · split at h
          · split at h
            · simp at h
            · exact afterInteraction_not_win (by simp [List.length_set, hlen])
                (finishInteraction_state h)
          · exact afterInteraction_not_win (by simp [List.length_set, hlen])
              (finishInteraction_state h)

lemma wf_of_fields {s s2 : GameState} (hwf : WFState s) (ht : s2.table = s.table)
    (hd : s2.deck = s.deck) : WFState s2 := by
  obtain ⟨hlen, htab, hdeck⟩ := hwf
  refine ⟨by rw [ht, hlen], ?_, ?_⟩
  · intro c hc
    rw [ht] at hc
    exact htab c hc
  · intro c hc
    rw [hd] at hc
    exact hdeck c hc

lemma wf_set_none {s : GameState} (hwf : WFState s) (i : Nat) (s2 : GameState)
    (ht : s2.table = s.table.set i none) (hd : s2.deck = s.deck) : WFState s2 := by
  obtain ⟨hlen, htab, hdeck⟩ := hwf
  refine ⟨by rw [ht, List.length_set, hlen], ?_, ?_⟩
  · intro c hc
    rw [ht] at hc
    rcases List.mem_or_eq_of_mem_set hc with h2 | h2
    · exact htab c h2
    · simp at h2
  · intro c hc
    rw [hd] at hc
    exact hdeck c hc

lemma afterInteraction_wf {s s2 : GameState} {t : Option Terminal} (hwf : WFState s)
    (h : afterInteraction s = (s2, t)) : WFState s2 := by
  obtain ⟨hlen, htab, hdeck⟩ := hwf
  unfold afterInteraction at h
  simp only [] at h
  split at h
  · rw [Prod.mk.injEq] at h
    exact wf_of_fields ⟨hlen, htab, hdeck⟩ (by rw [← h.1]) (by rw [← h.1])
  · split at h
    · rw [Prod.mk.injEq] at h
      rw [← h.1]
      refine ⟨?_, ?_, ?_⟩
      · simp only []
        rw [show (refill s.table s.deck).1.length = s.table.length from refill_length _ _]
        exact hlen
      · intro c hc
        simp only [] at hc
        rcases refill_mem1 hc with h2 | ⟨c2, hc2, he⟩
        · exact htab c h2
        · injection he with he2
          rw [he2]
          exact hdeck c2 hc2
      · intro c hc
        simp only [] at hc
        exact hdeck c (refill_mem2 hc)
    · rw [Prod.mk.injEq] at h
      exact wf_of_fields ⟨hlen, htab, hdeck⟩ (by rw [← h.1]) (by rw [← h.1])

lemma applyAction_wf {s : GameState} {a : Action} {s2 : GameState} (hwf : WFState s)
    (h : (applyAction s a).1 = some s2) : WFState s2 := by
  cases a with
  | flee =>
    simp only [applyAction, cloneState_eq] at h
    simp at h
    obtain ⟨hlen, htab, hdeck⟩ := hwf
    have hd0 : ∀ c ∈ fleeReturn s.table s.deck, ValidCard c := by
      intro c hc
      rcases fleeReturn_mem hc with h2 | h2
      · exact htab c h2
      · exact hdeck c h2
    rw [← h]
    refine ⟨rfl, ?_, ?_⟩
    · intro c hc
      simp only [List.mem_cons, List.not_mem_nil, or_false] at hc
      rcases hc with hc | hc | hc | hc
      · exact hd0 c (drawTop_mem hc.symm)
      · exact hd0 c (drawTop_sub (drawTop_mem hc.symm))
      · exact hd0 c (drawTop_sub (drawTop_sub (drawTop_mem hc.symm)))
      · exact hd0 c (drawTop_sub (drawTop_sub (drawTop_sub (drawTop_mem hc.symm))))
    · intro c hc
      simp only [] at hc
      exact hd0 c (drawTop_sub (drawTop_sub (drawTop_sub (drawTop_sub hc))))
  | enemy slot method =>
    simp only [applyAction, cloneState_eq] at h
    rcases hc : slotCard s slot with _ | card
    · rw [hc] at h; simp at h
    · rw [hc] at h
      have hwf1 := wf_set_none hwf slot
        { s with table := s.table.set slot none } rfl rfl
      cases method with
      | weapon =>
        simp only at h
        split at h
        · split at h
          · simp at h
          · refine afterInteraction_wf ?_ (finishInteraction_state h)
            exact wf_of_fields hwf1 rfl rfl
        · simp at h
      | fist =>
        simp only at h
        split at h
        · simp at h
        · refine afterInteraction_wf ?_ (finishInteraction_state h)
          exact wf_of_fields hwf1 rfl rfl
  | weapon slot =>
    simp only [applyAction, cloneState_eq] at h
    rcases hc : slotCard s slot with _ | card
    · rw [hc] at h; simp at h
    · rw [hc] at h
      refine afterInteraction_wf ?_ (finishInteraction_state h)
      exact wf_set_none hwf slot _ rfl rfl
  | toolkit slot =>
    simp only [applyAction, cloneState_eq] at h
    rcases hc : slotCard s slot with _ | card
    · rw [hc] at h; simp at h
    · rw [hc] at h
      simp only at h
      split at h
      · refine afterInteraction_wf ?_ (finishInteraction_state h)
        exact wf_set_none hwf slot _ rfl rfl
      · refine afterInteraction_wf ?_ (finishInteraction_state h)
        exact wf_set_none hwf slot _ rfl rfl
  | potion slot =>
    simp only [applyAction, cloneState_eq] at h
    rcases hc : slotCard s slot with _ | card
    · rw [hc] at h; simp at h
    · rw [hc] at h
      simp only at h
      split at h
      · simp at h
      · have hwf1 := wf_set_none hwf slot
          { s with table := s.table.set slot none } rfl rfl
        split at h
        · refine afterInteraction_wf ?_ (finishInteraction_state h)
          exact wf_of_fields hwf1 rfl rfl
        · split at h
          · split at h
            · simp at h
            · refine afterInteraction_wf ?_ (finishInteraction_state h)
              exact wf_of_fields hwf1 rfl rfl
          · refine afterInteraction_wf ?_ (finishInteraction_state h)
            exact wf_of_fields hwf1 rfl rfl

lemma lookupParent_cons (k0 k : String) (v : Option (String × Action)) (m : ParentMap) :
    lookupParent ((k0, v) :: m) k = if k = k0 then some v else lookupParent m k := rfl

lemma GoodKey_mono {m : ParentMap} {k0 : String} {v : Option (String × Action)}
    (hfresh : lookupParent m k0 = none) {k : String} {acts : List Action}
    (hg : GoodKey m k acts) : GoodKey ((k0, v) :: m) k acts := by
  induction hg with
  | @root k1 hk =>
    apply GoodKey.root
    rw [lookupParent_cons, if_neg]
    · exact hk
    · intro he
      rw [he, hfresh] at hk
      simp at hk
  | @step k1 pk a acts1 hk _ ih =>
    apply GoodKey.step ?_ ih
    rw [lookupParent_cons, if_neg]
    · exact hk
    · intro he
      rw [he, hfresh] at hk
      simp at hk

lemma walkParent_eq {m : ParentMap} {k : String} {acts : List Action}
    (hg : GoodKey m k acts) :
    ∀ (fuel : Nat), acts.length + 1 ≤ fuel →
      ∀ acc, walkParent m fuel k acc = acc ++ acts.reverse := by
  induction hg with
  | @root k1 hk =>
    intro fuel hf acc
    match fuel, hf with
    | f + 1, _ =>
      rw [walkParent, hk]
      simp
  | @step k1 pk a acts1 hk _ ih =>
    intro fuel hf acc
    match fuel, hf with
    | f + 1, hf =>
      rw [walkParent, hk]
      show walkParent m f pk (acc ++ [a]) = acc ++ (acts1 ++ [a]).reverse
      rw [ih f (by simp at hf ⊢; omega) (acc ++ [a])]
      simp

lemma ReplayTo_snoc :
    ∀ (acts : List Action) (init s s2 : GameState) (a : Action),
      ReplayTo init acts s → a ∈ enumerateActions s → applyAction s a = (some s2, none) →
      ReplayTo init (acts ++ [a]) s2 := by
  intro acts
  induction acts with
  | nil =>
    intro init s s2 a hr hm ha
    rw [ReplayTo] at hr
    rw [hr] at hm ha
    exact ⟨s2, hm, ha, rfl⟩
  | cons b rest ih =>
    intro init s s2 a hr hm ha
    obtain ⟨s1, h1, h2, h3⟩ := hr
    exact ⟨s1, h1, h2, ih s1 s s2 a h3 hm ha⟩

lemma ReplayTo_pathwins :
    ∀ (acts : List Action) (init s : GameState) (a : Action),
      ReplayTo init acts s → a ∈ enumerateActions s →
      (applyAction s a).2 = some Terminal.win → PathWins init (acts ++ [a]) := by
  intro acts
  induction acts with
  | nil =>
    intro init s a hr hm ha
    rw [ReplayTo] at hr
    rw [hr] at hm ha
    exact ⟨hm, Or.inl ⟨ha, rfl⟩⟩
  | cons b rest ih =>
    intro init s a hr hm ha
    obtain ⟨s1, h1, h2, h3⟩ := hr
    exact ⟨h1, Or.inr ⟨s1, h2, ih s1 s a h3 hm ha⟩⟩

lemma stateKey_mem_toNat {s : GameState} {c : Char} (hc : c ∈ (stateKey s).data) :
    c.toNat = 58 ∨ c.toNat = 124 ∨ c.toNat = 45 ∨ c.toNat = 44 ∨ c.toNat = 46 ∨
      (48 ≤ c.toNat ∧ c.toNat ≤ 57) := by
  have hc2 : c ∈ joinSep (Char.ofNat 58)
      [intChars s.hp,
       natChars s.weaponRank,
       if s.potionUsedThisRoom then [Char.ofNat 49] else [Char.ofNat 48],
       natChars s.interactionsThisRoom,
       if s.fledLastRoom then [Char.ofNat 49] else [Char.ofNat 48],
       joinSep (Char.ofNat 46) (s.weaponKills.map natChars),
       [Char.ofNat 124],
       joinSep (Char.ofNat 44) (s.table.map fun oc => natChars (encodeCard oc)),
       [Char.ofNat 124],
       joinSep (Char.ofNat 44) (s.deck.map fun cc => natChars (encodeCard (some cc)))] := hc
  rcases mem_joinSep _ hc2 with h | ⟨x, hx, hcx⟩
  · left
    rw [h]
    rfl
  · simp only [List.mem_cons, List.not_mem_nil, or_false] at hx
    rcases hx with rfl | rfl | rfl | rfl | rfl | rfl | rfl | rfl | rfl | rfl
    · rcases intChars_toNat_bounds hcx with h | h
      · right; right; left; exact h
      · right; right; right; right; right; exact h
    · right; right; right; right; right; exact natChars_toNat_bounds hcx
    · split at hcx <;> rw [List.mem_singleton] at hcx <;> rw [hcx] <;>
        right <;> right <;> right <;> right <;> right <;> exact ⟨by decide, by decide⟩
    · right; right; right; right; right; exact natChars_toNat_bounds hcx
    · split at hcx <;> rw [List.mem_singleton] at hcx <;> rw [hcx] <;>
        right <;> right <;> right <;> right <;> right <;> exact ⟨by decide, by decide⟩
    · rcases mem_joinSep _ hcx with h | ⟨y, hy, hcy⟩
      · right; right; right; right; left; rw [h]; rfl
      · obtain ⟨n, _, rfl⟩ := List.mem_map.mp hy
        right; right; right; right; right; exact natChars_toNat_bounds hcy
    · rw [List.mem_singleton] at hcx
      right; left; rw [hcx]; rfl
    · rcases mem_joinSep _ hcx with h | ⟨y, hy, hcy⟩
      · right; right; right; left; rw [h]; rfl
      · obtain ⟨oc, _, rfl⟩ := List.mem_map.mp hy
        right; right; right; right; right; exact natChars_toNat_bounds hcy
    · rw [List.mem_singleton] at hcx
      right; left; rw [hcx]; rfl
    · rcases mem_joinSep _ hcx with h | ⟨y, hy, hcy⟩
      · right; right; right; left; rw [h]; rfl
      · obtain ⟨cc, _, rfl⟩ := List.mem_map.mp hy
        right; right; right; right; right; exact natChars_toNat_bounds hcy

lemma winKey_ne_stateKey (k : String) (idx : Nat) (s : GameState) :
    k ++ "=>WIN@" ++ natStr idx ≠ stateKey s := by
  intro h
  have hmem : Char.ofNat 62 ∈ (k ++ "=>WIN@" ++ natStr idx).data := by
    rw [String.data_append, String.data_append]
    refine List.mem_append.mpr (Or.inl (List.mem_append.mpr (Or.inr ?_)))
    decide
  rw [h] at hmem
  have h62 : (Char.ofNat 62).toNat = 62 := by decide
  rcases stateKey_mem_toNat hmem with h2 | h2 | h2 | h2 | h2 | ⟨h2, h3⟩ <;> omega

lemma win_dead_contradiction {s : GameState} (hw : isWinState s = true)
    (hd : isDeadState s = true) : False := by
  unfold isWinState at hw
  unfold isDeadState at hd
  rw [Bool.and_eq_true, Bool.and_eq_true] at hw
  have h1 := of_decide_eq_true hw.1.1
  have h2 := of_decide_eq_true hd
  omega

lemma not_winnable_of_dead {s : GameState} (h : isDeadState s = true) : ¬ Winnable s := by
  intro hw
  cases hw with
  | win hwin => exact win_dead_contradiction hwin h
  | stepWin a hd _ _ => rw [hd] at h; simp at h
  | step hd _ _ _ => rw [hd] at h; simp at h

lemma closed_no_winnable {visited : List String}
    (hcl : ∀ s : GameState, WFState s → stateKey s ∈ visited →
      isDeadState s = true ∨ ClosedState visited s) :
    ∀ s : GameState, Winnable s → WFState s → stateKey s ∈ visited → False := by
  intro s hw
  induction hw with
  | win hwin =>
    intro hwf hv
    rcases hcl _ hwf hv with hd | hcls
    · exact win_dead_contradiction hwin hd
    · rw [hcls.1] at hwin
      simp at hwin
  | stepWin a hd hm hwin =>
    intro hwf hv
    rcases hcl _ hwf hv with hdd | hcls
    · rw [hd] at hdd; simp at hdd
    · exact (hcls.2 a hm).1 hwin
  | step hd hm ha _ ih =>
    intro hwf hv
    rcases hcl _ hwf hv with hdd | hcls
    · rw [hd] at hdd; simp at hdd
    · exact ih (applyAction_wf hwf (by rw [ha])) ((hcls.2 _ hm).2 _ ha)

lemma makeInitialState_wf {deck : List Card} {inc : Bool} {shp : Int}
    (hvalid : ∀ c ∈ deck, ValidCard c) : WFState (makeInitialState deck inc shp) := by
  have hd0 : ∀ c ∈ filterDeckForMode deck inc, ValidCard c := by
    intro c hc
    apply hvalid
    unfold filterDeckForMode at hc
    split at hc
    · exact hc
    · exact List.mem_of_mem_filter hc
  refine ⟨rfl, ?_, ?_⟩
  · intro c hc
    simp only [makeInitialState, List.mem_cons, List.not_mem_nil, or_false] at hc
    rcases hc with hc | hc | hc | hc
    · exact hd0 c (drawTop_mem hc.symm)
    · exact hd0 c (drawTop_sub (drawTop_mem hc.symm))
    · exact hd0 c (drawTop_sub (drawTop_sub (drawTop_mem hc.symm)))
    · exact hd0 c (drawTop_sub (drawTop_sub (drawTop_sub (drawTop_mem hc.symm))))
  · intro c hc
    simp only [makeInitialState] at hc
    exact hd0 c (drawTop_sub (drawTop_sub (drawTop_sub (drawTop_sub hc))))

lemma ClosedState_mono {v v2 : List String} {s : GameState} (hsub : ∀ x ∈ v, x ∈ v2)
    (h : ClosedState v s) : ClosedState v2 s := by
  refine ⟨h.1, ?_⟩
  intro a ha
  refine ⟨(h.2 a ha).1, ?_⟩
  intro s2 hs2
  exact hsub _ ((h.2 a ha).2 s2 hs2)

lemma ActionDone_mono {v v2 : List String} {above above2 : List GameState} {s : GameState}
    {a : Action} (hv : ∀ x ∈ v, x ∈ v2)
    (ha : ∀ x ∈ above, x ∈ above2 ∨ stateKey x ∈ v2)
    (h : ActionDone v above s a) : ActionDone v2 above2 s a := by
  refine ⟨h.1, ?_⟩
  intro s2 hs2
  rcases h.2 s2 hs2 with h2 | h2
  · exact Or.inl (hv _ h2)
  · rcases ha s2 h2 with h3 | h3
    · exact Or.inr h3
    · exact Or.inl h3

lemma FrameOK_mono {v v2 : List String} {above above2 : List GameState} {f : Frame}
    {k : String} (hv : ∀ x ∈ v, x ∈ v2)
    (ha : ∀ x ∈ above, x ∈ above2 ∨ stateKey x ∈ v2)
    (h : FrameOK v above f k) : FrameOK v2 above2 f k := by
  obtain ⟨h1, h2, h3, h4⟩ := h
  refine ⟨h1, h2, h3, ?_⟩
  intro acts hacts
  obtain ⟨g1, g2, g3, g4, g5⟩ := h4 acts hacts
  exact ⟨g1, g2, g3, hv _ g4, fun j hj hj2 => ActionDone_mono hv ha (g5 j hj hj2)⟩

lemma StackOK_mono {v v2 : List String} (hv : ∀ x ∈ v, x ∈ v2) :
    ∀ (stack : List (Frame × String)) (above above2 : List GameState),
      (∀ x ∈ above, x ∈ above2 ∨ stateKey x ∈ v2) →
      StackOK v stack above → StackOK v2 stack above2 := by
  intro stack
  induction stack with
  | nil => intro above above2 _ _; trivial
  | cons fk rest ih =>
    rcases fk with ⟨f, k⟩
    intro above above2 hab h
    obtain ⟨hf, hr⟩ := h
    refine ⟨FrameOK_mono hv hab hf, ?_⟩
    refine ih (f.state :: above) (f.state :: above2) ?_ hr
    intro x hx
    rcases List.mem_cons.mp hx with rfl | hx2
    · exact Or.inl (List.mem_cons_self _ _)
    · rcases hab x hx2 with h2 | h2
      · exact Or.inl (List.mem_cons_of_mem _ h2)
      · exact Or.inr h2

lemma StackOK_pop {v v2 : List String} {rest : List (Frame × String)} {s0 : GameState}
    {above : List GameState} (hv : ∀ x ∈ v, x ∈ v2) (hs0 : stateKey s0 ∈ v2)
    (h : StackOK v rest (s0 :: above)) : StackOK v2 rest above := by
  refine StackOK_mono hv rest (s0 :: above) above ?_ h
  intro x hx
  rcases List.mem_cons.mp hx with rfl | hx2
  · exact Or.inr hs0
  · exact Or.inl hx2

lemma TopOK_of_expanded {v : List String} {rest : List (Frame × String)}
    (h : ∀ fk ∈ rest, (Prod.fst fk).actions.isSome = true) : TopOK v rest := by
  match rest with
  | [] => trivial
  | (g, l) :: r =>
    intro hgnone
    exfalso
    have := h (g, l) (List.mem_cons_self _ _)
    rw [hgnone] at this
    simp at this

lemma NonTopExpanded_tail {rest : List (Frame × String)}
    (h : ∀ fk ∈ rest, (Prod.fst fk).actions.isSome = true) : NonTopExpanded rest := by
  match rest with
  | [] => trivial
  | hd :: tl =>
    intro fk hfk
    exact h fk (List.mem_cons_of_mem hd hfk)

lemma ParentOK_tail {init : GameState} {parent : Option ParentMap} {fk0 : Frame × String}
    {rest : List (Frame × String)} (h : ParentOK init parent (fk0 :: rest)) :
    ParentOK init parent rest := by
  match parent, h with
  | none, _ => trivial
  | some m, ⟨he, hk⟩ => exact ⟨he, fun fk hfk => hk fk (List.mem_cons_of_mem fk0 hfk)⟩

lemma ParentOK_same_keys {init : GameState} {parent : Option ParentMap}
    {stack stack2 : List (Frame × String)}
    (hmap : ∀ fk ∈ stack2, ∃ fk0 ∈ stack, Prod.snd fk0 = Prod.snd fk)
    (h : ParentOK init parent stack) : ParentOK init parent stack2 := by
  match parent, h with
  | none, _ => trivial
  | some m, ⟨he, hk⟩ =>
    refine ⟨he, ?_⟩
    intro fk hfk
    obtain ⟨fk0, hfk0, hsnd⟩ := hmap fk hfk
    rw [← hsnd]
    exact hk fk0 hfk0

lemma inv_pop_dead {init : GameState} {visited : List String} {parent : Option ParentMap}
    {f : Frame} {k : String} {rest : List (Frame × String)}
    (hinv : SearchInv init visited parent ((f, k) :: rest))
    (hdead : isDeadState f.state = true) :
    SearchInv init (k :: visited) parent rest := by
  obtain ⟨wf_init, init_mem, frames, top_ok, nontop, visited_ok, parent_ok⟩ := hinv
  obtain ⟨hfr, hrest⟩ := frames
  obtain ⟨hwf, hkey, hnowin, _⟩ := hfr
  have hsub : ∀ x ∈ visited, x ∈ k :: visited := fun x hx => List.mem_cons_of_mem k hx
  refine ⟨wf_init, ?_, ?_, ?_, ?_, ?_, ?_⟩
  · rcases init_mem with h | ⟨fk, hfk, hst⟩
    · exact Or.inl (hsub _ h)
    · rcases List.mem_cons.mp hfk with rfl | hfk2
      · left
        rw [← hst, ← hkey]
        exact List.mem_cons_self _ _
      · exact Or.inr ⟨fk, hfk2, hst⟩
  · exact StackOK_pop hsub (by rw [← hkey]; exact List.mem_cons_self _ _) hrest
  · exact TopOK_of_expanded nontop
  · exact NonTopExpanded_tail nontop
  · intro s hwfs hkv
    rcases List.mem_cons.mp hkv with heq | hold
    · left
      have hse : s = f.state :=
        (stateKey_injective_iff s f.state hwfs hwf).mp (heq.trans hkey)
      rw [hse]
      exact hdead
    · rcases visited_ok s hwfs hold with hd | ⟨fk, hfk, hst⟩ | hcls
      · exact Or.inl hd
      · rcases List.mem_cons.mp hfk with rfl | hfk2
        · left
          rw [← hst]
          exact hdead
        · exact Or.inr (Or.inl ⟨fk, hfk2, hst⟩)
      · exact Or.inr (Or.inr (ClosedState_mono hsub hcls))
  · exact ParentOK_tail parent_ok

lemma inv_pop_exhausted {init : GameState} {visited : List String}
    {parent : Option ParentMap} {st : GameState} {acts : List Action} {index : Nat}
    {k : String} {rest : List (Frame × String)}
    (hinv : SearchInv init visited parent ((⟨st, some acts, index⟩, k) :: rest))
    (hge : acts.length ≤ index) :
    SearchInv init visited parent rest := by
  obtain ⟨wf_init, init_mem, frames, top_ok, nontop, visited_ok, parent_ok⟩ := hinv
  obtain ⟨hfr, hrest⟩ := frames
  obtain ⟨hwf, hkey, hnowin, hexp⟩ := hfr
  obtain ⟨hacts, hidx, hdead, hkv, hdone⟩ := hexp acts rfl
  have hidx2 : index ≤ acts.length := hidx
  have hdone2 : ∀ j, j < index → ∀ hj2 : j < acts.length,
      ActionDone visited [] st (acts.get ⟨j, hj2⟩) := hdone
  have hclosed : ClosedState visited st := by
    refine ⟨hnowin, ?_⟩
    intro a ha
    rw [← hacts] at ha
    obtain ⟨⟨j, hj⟩, rfl⟩ := List.mem_iff_get.mp ha
    have hd := hdone2 j (by omega) hj
    refine ⟨hd.1, ?_⟩
    intro s2 hs2
    rcases hd.2 s2 hs2 with h2 | h2
    · exact h2
    · simp at h2
  refine ⟨wf_init, ?_, ?_, ?_, ?_, ?_, ?_⟩
  · rcases init_mem with h | ⟨fk, hfk, hst⟩
    · exact Or.inl h
    · rcases List.mem_cons.mp hfk with rfl | hfk2
      · left
        rw [← hst]
        exact hkv
      · exact Or.inr ⟨fk, hfk2, hst⟩
  · exact StackOK_pop (fun x hx => hx) hkv hrest
  · exact TopOK_of_expanded nontop
  · exact NonTopExpanded_tail nontop
  · intro s hwfs hkv2
    rcases visited_ok s hwfs hkv2 with hd | ⟨fk, hfk, hst⟩ | hcls
    · exact Or.inl hd
    · rcases List.mem_cons.mp hfk with rfl | hfk2
      · right
        right
        have hs : s = st := hst.symm
        rw [hs]
        exact hclosed
      · exact Or.inr (Or.inl ⟨fk, hfk2, hst⟩)
    · exact Or.inr (Or.inr hcls)
  · exact ParentOK_tail parent_ok

lemma inv_expand {init : GameState} {visited : List String} {parent : Option ParentMap}
    {f : Frame} {k : String} {rest : List (Frame × String)}
    (hinv : SearchInv init visited parent ((f, k) :: rest))
    (hk : k ∉ visited) (hdead : isDeadState f.state = false)
    (hwin : isWinState f.state = false) :
    SearchInv init (k :: visited) parent
      ((⟨f.state, some (enumerateActions f.state), 0⟩, k) :: rest) := by
  obtain ⟨wf_init, init_mem, frames, top_ok, nontop, visited_ok, parent_ok⟩ := hinv
  obtain ⟨hfr, hrest⟩ := frames
  obtain ⟨hwf, hkey, hnowin, _⟩ := hfr
  have hsub : ∀ x ∈ visited, x ∈ k :: visited := fun x hx => List.mem_cons_of_mem k hx
  refine ⟨wf_init, ?_, ?_, ?_, ?_, ?_, ?_⟩
  · rcases init_mem with h | ⟨fk, hfk, hst⟩
    · exact Or.inl (hsub _ h)
    · rcases List.mem_cons.mp hfk with rfl | hfk2
      · exact Or.inr ⟨_, List.mem_cons_self _ _, hst⟩
      · exact Or.inr ⟨fk, List.mem_cons_of_mem _ hfk2, hst⟩
  · refine ⟨⟨hwf, hkey, hnowin, ?_⟩, ?_⟩
    · intro acts hacts
      injection hacts with hacts2
      refine ⟨hacts2.symm, Nat.zero_le _, hdead, ?_, ?_⟩
      · rw [← hkey]
        exact List.mem_cons_self _ _
      · intro j hj hj2
        exact absurd (show j < 0 from hj) (by omega)
    · exact StackOK_mono hsub rest [f.state] [f.state]
        (fun x hx => Or.inl hx) hrest
  · intro hnone
    exact absurd hnone (by simp)
  · intro fk hfk
    exact nontop fk hfk
  · intro s hwfs hkv
    rcases List.mem_cons.mp hkv with heq | hold
    · right
      left
      refine ⟨_, List.mem_cons_self _ _, ?_⟩
      exact ((stateKey_injective_iff s f.state hwfs hwf).mp (heq.trans hkey)).symm
    · rcases visited_ok s hwfs hold with hd | ⟨fk, hfk, hst⟩ | hcls
      · exact Or.inl hd
      · rcases List.mem_cons.mp hfk with rfl | hfk2
        · exact Or.inr (Or.inl ⟨_, List.mem_cons_self _ _, hst⟩)
        · exact Or.inr (Or.inl ⟨fk, List.mem_cons_of_mem _ hfk2, hst⟩)
      · exact Or.inr (Or.inr (ClosedState_mono hsub hcls))
  · refine ParentOK_same_keys ?_ parent_ok
    intro fk hfk
    rcases List.mem_cons.mp hfk with rfl | hfk2
    · exact ⟨(f, k), List.mem_cons_self _ _, rfl⟩
    · exact ⟨fk, List.mem_cons_of_mem _ hfk2, rfl⟩

lemma inv_advance {init : GameState} {visited : List String} {parent : Option ParentMap}
    {st : GameState} {acts : List Action} {index : Nat} {k : String}
    {rest : List (Frame × String)}
    (hinv : SearchInv init visited parent ((⟨st, some acts, index⟩, k) :: rest))
    (hlt : index < acts.length)
    (hdone : ActionDone visited [] st (acts.get ⟨index, hlt⟩)) :
    SearchInv init visited parent ((⟨st, some acts, index + 1⟩, k) :: rest) := by
  obtain ⟨wf_init, init_mem, frames, top_ok, nontop, visited_ok, parent_ok⟩ := hinv
  obtain ⟨hfr, hrest⟩ := frames
  obtain ⟨hwf, hkey, hnowin, hexp⟩ := hfr
  obtain ⟨hacts, hidx, hdead, hkv, hdone0⟩ := hexp acts rfl
  have hidx2 : index ≤ acts.length := hidx
  have hdone02 : ∀ j, j < index → ∀ hj2 : j < acts.length,
      ActionDone visited [] st (acts.get ⟨j, hj2⟩) := hdone0
  refine ⟨wf_init, ?_, ?_, ?_, ?_, ?_, ?_⟩
  · rcases init_mem with h | ⟨fk, hfk, hst⟩
    · exact Or.inl h
    · rcases List.mem_cons.mp hfk with rfl | hfk2
      · exact Or.inr ⟨_, List.mem_cons_self _ _, hst⟩
      · exact Or.inr ⟨fk, List.mem_cons_of_mem _ hfk2, hst⟩
  · refine ⟨⟨hwf, hkey, hnowin, ?_⟩, hrest⟩
    intro acts2 hacts2
    injection hacts2 with hacts3
    subst hacts3
    refine ⟨hacts, show index + 1 ≤ acts.length by omega, hdead, hkv, ?_⟩
    intro j hj hj2
    have hj4 : j < index + 1 := hj
    rcases Nat.lt_succ_iff_lt_or_eq.mp hj4 with hj3 | rfl
    · exact hdone02 j hj3 hj2
    · exact hdone
  · intro hnone
    exact absurd hnone (by simp)
  · exact nontop
  · intro s hwfs hkv2
    rcases visited_ok s hwfs hkv2 with hd | ⟨fk, hfk, hst⟩ | hcls
    · exact Or.inl hd
    · rcases List.mem_cons.mp hfk with rfl | hfk2
      · exact Or.inr (Or.inl ⟨_, List.mem_cons_self _ _, hst⟩)
      · exact Or.inr (Or.inl ⟨fk, List.mem_cons_of_mem _ hfk2, hst⟩)
    · exact Or.inr (Or.inr hcls)
  · refine ParentOK_same_keys ?_ parent_ok
    intro fk hfk
    rcases List.mem_cons.mp hfk with rfl | hfk2
    · exact ⟨_, List.mem_cons_self _ _, rfl⟩
    · exact ⟨fk, List.mem_cons_of_mem _ hfk2, rfl⟩

lemma inv_push {init : GameState} {visited : List String} {parent : Option ParentMap}
    {st : GameState} {acts : List Action} {index : Nat} {k : String}
    {rest : List (Frame × String)} {s2 : GameState}
    (hinv : SearchInv init visited parent ((⟨st, some acts, index⟩, k) :: rest))
    (hlt : index < acts.length)
    (hout : applyAction st (acts.get ⟨index, hlt⟩) = (some s2, none))
    (hnk : stateKey s2 ∉ visited)
    (parent1 : Option ParentMap)
    (hp1 : ParentOK init parent1
      ((⟨s2, none, 0⟩, stateKey s2) :: (⟨st, some acts, index + 1⟩, k) :: rest)) :
    SearchInv init visited parent1
      ((⟨s2, none, 0⟩, stateKey s2) :: (⟨st, some acts, index + 1⟩, k) :: rest) := by
  obtain ⟨wf_init, init_mem, frames, top_ok, nontop, visited_ok, parent_ok⟩ := hinv
  obtain ⟨hfr, hrest⟩ := frames
  obtain ⟨hwf, hkey, hnowin, hexp⟩ := hfr
  obtain ⟨hacts, hidx, hdead, hkv, hdone0⟩ := hexp acts rfl
  have hwf2 : WFState st := hwf
  have hkey2 : k = stateKey st := hkey
  have hnowin2 : isWinState st = false := hnowin
  have hdead2 : isDeadState st = false := hdead
  have hkv2 : stateKey st ∈ visited := hkv
  have hacts2 : acts = enumerateActions st := hacts
  have hdone02 : ∀ j, j < index → ∀ hj2 : j < acts.length,
      ActionDone visited [] st (acts.get ⟨j, hj2⟩) := hdone0
  have hs2wf : WFState s2 := applyAction_wf hwf2 (by rw [hout])
  have hamem : acts.get ⟨index, hlt⟩ ∈ enumerateActions st := by
    rw [← hacts2]
    exact List.get_mem acts index hlt
  have hs2nowin : isWinState s2 = false :=
    applyAction_not_win hwf2.1 hamem (by rw [hout])
  refine ⟨wf_init, ?_, ?_, ?_, ?_, ?_, hp1⟩
  · rcases init_mem with h | ⟨fk, hfk, hst⟩
    · exact Or.inl h
    · rcases List.mem_cons.mp hfk with rfl | hfk2
      · exact Or.inr ⟨_, List.mem_cons_of_mem _ (List.mem_cons_self _ _), hst⟩
      · exact Or.inr ⟨fk, List.mem_cons_of_mem _ (List.mem_cons_of_mem _ hfk2), hst⟩
  · refine ⟨⟨hs2wf, rfl, hs2nowin, fun acts3 h => by simp at h⟩, ?_, ?_⟩
    · refine ⟨hwf2, hkey2, hnowin2, ?_⟩
      intro acts3 hacts3
      injection hacts3 with hacts4
      subst hacts4
      refine ⟨hacts2, show index + 1 ≤ acts.length by omega, hdead2, hkv2, ?_⟩
      intro j hj hj2
      have hj4 : j < index + 1 := hj
      rcases Nat.lt_succ_iff_lt_or_eq.mp hj4 with hj3 | rfl
      · exact ActionDone_mono (fun x hx => hx) (fun x hx => absurd hx (List.not_mem_nil x))
          (hdone02 j hj3 hj2)
      · refine ⟨by rw [hout]; simp, ?_⟩
        intro s3 hs3
        rw [hout] at hs3
        rw [Prod.mk.injEq] at hs3
        right
        rw [show s3 = s2 by injection hs3.1 with h2; exact h2.symm]
        exact List.mem_cons_self _ _
    · refine StackOK_mono (fun x hx => hx) rest [st] (st :: [s2]) ?_ hrest
      intro x hx
      rcases List.mem_cons.mp hx with rfl | hx2
      · exact Or.inl (List.mem_cons_self _ _)
      · simp at hx2
  · intro _
    exact hnk
  · intro fk hfk
    rcases List.mem_cons.mp hfk with rfl | hfk2
    · rfl
    · exact nontop fk hfk2
  · intro s hwfs hkv3
    rcases visited_ok s hwfs hkv3 with hd | ⟨fk, hfk, hst⟩ | hcls
    · exact Or.inl hd
    · rcases List.mem_cons.mp hfk with rfl | hfk2
      · exact Or.inr (Or.inl ⟨_, List.mem_cons_of_mem _ (List.mem_cons_self _ _), hst⟩)
      · exact Or.inr (Or.inl ⟨fk, List.mem_cons_of_mem _ (List.mem_cons_of_mem _ hfk2), hst⟩)
    · exact Or.inr (Or.inr hcls)

lemma parent_ok_push {init : GameState} {visited : List String} {parent : Option ParentMap}
    {st : GameState} {acts : List Action} {index : Nat} {k : String}
    {rest : List (Frame × String)} {s2 : GameState}
    (hinv : SearchInv init visited parent ((⟨st, some acts, index⟩, k) :: rest))
    (hlt : index < acts.length)
    (hout : applyAction st (acts.get ⟨index, hlt⟩) = (some s2, none)) :
    ParentOK init
      (pushParent parent (stateKey s2) (k, acts.get ⟨index, hlt⟩))
      ((⟨s2, none, 0⟩, stateKey s2) :: (⟨st, some acts, index + 1⟩, k) :: rest) := by
  obtain ⟨wf_init, init_mem, frames, top_ok, nontop, visited_ok, parent_ok⟩ := hinv
  obtain ⟨hfr, hrest⟩ := frames
  obtain ⟨hwf, hkey, hnowin, hexp⟩ := hfr
  obtain ⟨hacts, hidx, hdead, hkv, hdone0⟩ := hexp acts rfl
  have hwf2 : WFState st := hwf
  have hkey2 : k = stateKey st := hkey
  have hacts2 : acts = enumerateActions st := hacts
  have hs2wf : WFState s2 := applyAction_wf hwf2 (by rw [hout])
  have hamem : acts.get ⟨index, hlt⟩ ∈ enumerateActions st := by
    rw [← hacts2]
    exact List.get_mem acts index hlt
  match parent, parent_ok with
  | none, _ => trivial
  | some m, hpo =>
    obtain ⟨⟨hroot, hentries⟩, hkeys⟩ := hpo
    have hkent : (lookupParent m k).isSome = true :=
      hkeys (⟨st, some acts, index⟩, k) (List.mem_cons_self _ _)
    show ParentOK init
      (if (lookupParent m (stateKey s2)).isSome then some m
       else some ((stateKey s2, some (k, acts.get ⟨index, hlt⟩)) :: m)) _
    by_cases hhas : (lookupParent m (stateKey s2)).isSome = true
    · rw [if_pos hhas]
      refine ⟨⟨hroot, hentries⟩, ?_⟩
      intro fk hfk
      rcases List.mem_cons.mp hfk with rfl | hfk2
      · exact hhas
      · rcases List.mem_cons.mp hfk2 with rfl | hfk3
        · exact hkent
        · exact hkeys fk (List.mem_cons_of_mem _ hfk3)
    · rw [if_neg hhas]
      have hfresh : lookupParent m (stateKey s2) = none := by
        rcases h : lookupParent m (stateKey s2) with _ | v
        · rfl
        · rw [h] at hhas
          simp at hhas
      obtain ⟨vk, hvk⟩ := Option.isSome_iff_exists.mp hkent
      obtain ⟨acts_k, sk, hgk, hlen_k, hwfk, hkeyk, hrep⟩ := hentries k vk hvk
      have hsk : sk = st :=
        (stateKey_injective_iff sk st hwfk hwf2).mp (hkeyk.symm.trans hkey2)
      subst hsk
      refine ⟨⟨?_, ?_⟩, ?_⟩
      · have hne : stateKey init ≠ stateKey s2 := by
          intro he
          rw [← he] at hfresh
          rw [hroot] at hfresh
          simp at hfresh
        rw [lookupParent_cons, if_neg hne]
        exact hroot
      · intro k2 e2 hk2
        rw [lookupParent_cons] at hk2
        split at hk2
        · rename_i hk2eq
          subst hk2eq
          refine ⟨acts_k ++ [acts.get ⟨index, hlt⟩], s2, ?_, ?_, hs2wf, rfl, ?_⟩
          · refine GoodKey.step ?_ (GoodKey_mono hfresh hgk)
            rw [lookupParent_cons, if_pos rfl]
          · simp only [List.length_append, List.length_cons, List.length_nil]
            omega
          · exact ReplayTo_snoc acts_k init sk s2 _ hrep hamem hout
        · obtain ⟨acts3, s3, hg3, hlen3, hwf3, hkey3, hrep3⟩ := hentries k2 e2 hk2
          refine ⟨acts3, s3, GoodKey_mono hfresh hg3, ?_, hwf3, hkey3, hrep3⟩
          simp only [List.length_cons]
          omega
      · intro fk hfk
        rcases List.mem_cons.mp hfk with rfl | hfk2
        · rw [lookupParent_cons, if_pos rfl]
          rfl
        · rcases List.mem_cons.mp hfk2 with rfl | hfk3
          · rw [lookupParent_cons]
            split
            · rfl
            · exact hkent
          · rw [lookupParent_cons]
            split
            · rfl
            · exact hkeys fk (List.mem_cons_of_mem _ hfk3)

lemma win_branch_pathwins {init : GameState} {visited : List String} {st : GameState}
    {acts : List Action} {index : Nat} {k : String} {rest : List (Frame × String)}
    {m : ParentMap}
    (hinv : SearchInv init visited (some m) ((⟨st, some acts, index⟩, k) :: rest))
    (hlt : index < acts.length)
    (hwin : (applyAction st (acts.get ⟨index, hlt⟩)).2 = some Terminal.win) :
    PathWins init
      ((walkParent ((k ++ "=>WIN@" ++ natStr index, some (k, acts.get ⟨index, hlt⟩)) :: m)
          ((k ++ "=>WIN@" ++ natStr index, some (k, acts.get ⟨index, hlt⟩)) :: m).length
          (k ++ "=>WIN@" ++ natStr index) []).reverse) := by
  obtain ⟨wf_init, init_mem, frames, top_ok, nontop, visited_ok, parent_ok⟩ := hinv
  obtain ⟨hfr, hrest⟩ := frames
  obtain ⟨hwf, hkey, hnowin, hexp⟩ := hfr
  obtain ⟨hacts, hidx, hdead, hkv, hdone0⟩ := hexp acts rfl
  have hwf2 : WFState st := hwf
  have hkey2 : k = stateKey st := hkey
  have hacts2 : acts = enumerateActions st := hacts
  have hamem : acts.get ⟨index, hlt⟩ ∈ enumerateActions st := by
    rw [← hacts2]
    exact List.get_mem acts index hlt
  obtain ⟨⟨hroot, hentries⟩, hkeys⟩ := parent_ok
  have hkent : (lookupParent m k).isSome = true :=
    hkeys (⟨st, some acts, index⟩, k) (List.mem_cons_self _ _)
  obtain ⟨vk, hvk⟩ := Option.isSome_iff_exists.mp hkent
  obtain ⟨acts_k, sk, hgk, hlen_k, hwfk, hkeyk, hrep⟩ := hentries k vk hvk
  have hsk : sk = st :=
    (stateKey_injective_iff sk st hwfk hwf2).mp (hkeyk.symm.trans hkey2)
  subst hsk
  have hfreshw : lookupParent m (k ++ "=>WIN@" ++ natStr index) = none := by
    rcases h : lookupParent m (k ++ "=>WIN@" ++ natStr index) with _ | v
    · rfl
    · obtain ⟨_, s3, _, _, _, hkey3, _⟩ := hentries _ v h
      exact absurd hkey3 (winKey_ne_stateKey k index s3)
  have hgw : GoodKey ((k ++ "=>WIN@" ++ natStr index, some (k, acts.get ⟨index, hlt⟩)) :: m)
      (k ++ "=>WIN@" ++ natStr index) (acts_k ++ [acts.get ⟨index, hlt⟩]) := by
    refine GoodKey.step ?_ (GoodKey_mono hfreshw hgk)
    rw [lookupParent_cons, if_pos rfl]
  have hbound : (acts_k ++ [acts.get ⟨index, hlt⟩]).length + 1 ≤
      ((k ++ "=>WIN@" ++ natStr index, some (k, acts.get ⟨index, hlt⟩)) :: m).length := by
    simp only [List.length_append, List.length_cons, List.length_nil]
    omega
  rw [walkParent_eq hgw _ hbound []]
  rw [List.nil_append, List.reverse_reverse]
  exact ReplayTo_pathwins acts_k init sk _ hrep hamem hwin

lemma procActions_main (init : GameState)
    (recur : Nat → List String → Option ParentMap → List (Frame × String) → SolveResult)
    (hrec : ∀ nodes visited parent stack, SearchInv init visited parent stack →
      ResultOK init (recur nodes visited parent stack))
    (nodes : Nat) (visited : List String) (parent : Option ParentMap)
    (st : GameState) (acts : List Action) (index : Nat) (k : String)
    (rest : List (Frame × String))
    (hinv : SearchInv init visited parent ((⟨st, some acts, index⟩, k) :: rest)) :
    ResultOK init (procActions recur nodes visited parent st acts index k rest) := by
  unfold procActions
  split
  · rename_i hge
    exact hrec _ _ _ _ (inv_pop_exhausted hinv hge)
  · rename_i hge
    have hlt : index < acts.length := by omega
    simp only []
    split
    · rename_i os heq
      have heq2 : (applyAction st (acts.get ⟨index, hlt⟩)).2 = some Terminal.win := by
        rw [show applyAction st (acts.get ⟨index, hlt⟩) = (os, some Terminal.win) from heq]
    
      split
      · refine ⟨fun h => by simp at h, fun p h1 h2 => by simp at h2⟩
      · rename_i m
        refine ⟨fun h => by simp at h, fun p h1 h2 => ?_⟩
        simp only [SolveResult.path, Option.some.injEq] at h2
        rw [← h2]
        exact win_branch_pathwins hinv hlt heq2
    · rename_i os heq
      have heq2 : applyAction st (acts.get ⟨index, hlt⟩) = (os, some Terminal.dead) := heq
      refine hrec _ _ _ _ (inv_advance hinv hlt ⟨?_, ?_⟩)
      · rw [heq2]
        simp
      · intro s3 h3
        rw [heq2] at h3
        rw [Prod.mk.injEq] at h3
        exact absurd h3.2 (by simp)
    · rename_i heq
      have heq2 : applyAction st (acts.get ⟨index, hlt⟩) = (none, none) := heq
      refine hrec _ _ _ _ (inv_advance hinv hlt ⟨?_, ?_⟩)
      · rw [heq2]
        simp
      · intro s3 h3
        rw [heq2] at h3
        rw [Prod.mk.injEq] at h3
        exact absurd h3.1 (by simp)
    · rename_i s3 heq
      have heq2 : applyAction st (acts.get ⟨index, hlt⟩) = (some s3, none) := heq
      split
      · rename_i hmem
        refine hrec _ _ _ _ (inv_advance hinv hlt ⟨?_, ?_⟩)
        · rw [heq2]
          simp
        · intro s4 h4
          rw [heq2] at h4
          rw [Prod.mk.injEq] at h4
          left
          rw [show s4 = s3 by injection h4.1 with h5; exact h5.symm]
          exact hmem
      · rename_i hmem
        exact hrec _ _ _ _
          (inv_push hinv hlt heq2 hmem _ (parent_ok_push hinv hlt heq2))

lemma loopBody_cons (cfg : LoopCfg)
    (recur : Nat → List String → Option ParentMap → List (Frame × String) → SolveResult)
    (nodes : Nat) (visited : List String) (parent : Option ParentMap)
    (f : Frame) (k : String) (rest : List (Frame × String)) :
    loopBody cfg recur nodes visited parent ((f, k) :: rest) =
      if (match cfg.timeLimitMs with
          | some t => decide (t ≤ cfg.elapsed nodes)
          | none => false) then
        { clearable := none, reason := some Reason.time_limit, nodes := some nodes
          ms := some (cfg.elapsed nodes) }
      else if cfg.maxNodes < nodes then
        { clearable := none, reason := some Reason.node_limit, nodes := some (nodes + 1) }
      else
        match f.actions with
        | some acts => procActions recur (nodes + 1) visited parent f.state acts f.index k rest
        | none =>
          if k ∈ visited then recur (nodes + 1) visited parent rest
          else if isDeadState f.state then recur (nodes + 1) (k :: visited) parent rest
          else if isWinState f.state then
            { clearable := some true, nodes := some (nodes + 1)
              path := parent.map fun _ => [] }
          else
            procActions recur (nodes + 1) (k :: visited) parent f.state
              (enumerateActions f.state) 0 k rest := rfl

lemma loopGo_main (cfg : LoopCfg) (init : GameState) :
    ∀ (fuel nodes : Nat) (visited : List String) (parent : Option ParentMap)
      (stack : List (Frame × String)),
      SearchInv init visited parent stack →
      ResultOK init (loopGo cfg fuel nodes visited parent stack) := by
  intro fuel
  induction fuel with
  | zero =>
    intro nodes visited parent stack hinv
    exact ⟨fun h => by simp [loopGo] at h, fun p h1 h2 => by simp [loopGo] at h1⟩
  | succ f ih =>
    intro nodes visited parent stack hinv
    rw [loopGo]
    rcases stack with _ | ⟨⟨fr, k⟩, rest⟩
    · refine ⟨fun _ => ?_, fun p h1 h2 => by simp [loopBody] at h2⟩
      obtain ⟨wf_init, init_mem, frames, top_ok, nontop, visited_ok, parent_ok⟩ := hinv
      have hkinit : stateKey init ∈ visited := by
        rcases init_mem with h | ⟨fk, hfk, _⟩
        · exact h
        · simp at hfk
      intro hw
      refine closed_no_winnable ?_ init hw wf_init hkinit
      intro s hwfs hkv
      rcases visited_ok s hwfs hkv with hd | ⟨fk, hfk, _⟩ | hcls
      · exact Or.inl hd
      · simp at hfk
      · exact Or.inr hcls
    · rw [loopBody_cons]
      split
      · exact ⟨fun h => by simp at h, fun p h1 h2 => by simp at h1⟩
      · split
        · exact ⟨fun h => by simp at h, fun p h1 h2 => by simp at h1⟩
        · split
          · rename_i acts heq
            have hfeq : fr = (⟨fr.state, some acts, fr.index⟩ : Frame) := by
              rw [← heq]
            rw [hfeq] at hinv
            exact procActions_main init _ (fun n v p s hi => ih n v p s hi)
              _ _ _ _ _ _ _ _ hinv
          · rename_i heq
            split
            · rename_i hmem
              obtain ⟨_, _, _, top_ok, _, _, _⟩ := hinv
              have htop : fr.actions = none → k ∉ visited := top_ok
              exact absurd hmem (htop heq)
            · rename_i hmem
              split
              · rename_i hdead
                exact ih _ _ _ _ (inv_pop_dead hinv hdead)
              · rename_i hdead
                split
                · rename_i hwin
                  obtain ⟨_, _, frames, _, _, _, _⟩ := hinv
                  obtain ⟨hfr2, _⟩ := frames
                  obtain ⟨_, _, hnowin, _⟩ := hfr2
                  exact absurd hwin (by rw [hnowin]; simp)
                · rename_i hwin
                  refine procActions_main init _ (fun n v p s hi => ih n v p s hi)
                    _ _ _ _ _ _ _ _ ?_
                  exact inv_expand hinv hmem (by rwa [Bool.not_eq_true] at hdead)
                    (by rwa [Bool.not_eq_true] at hwin)

lemma inv_initial (init : GameState) (hwf : WFState init)
    (hwin : isWinState init = false)
    (parent : Option ParentMap)
    (hp : parent = none ∨ parent = some [(stateKey init, none)]) :
    SearchInv init [] parent [(⟨init, none, 0⟩, stateKey init)] := by
  refine ⟨hwf, Or.inr ⟨(⟨init, none, 0⟩, stateKey init), List.mem_singleton.mpr rfl, rfl⟩,
    ⟨⟨hwf, rfl, hwin, fun acts hacts => absurd hacts (by simp)⟩, trivial⟩,
    fun _ => List.not_mem_nil _,
    fun fk hfk => absurd hfk (List.not_mem_nil _),
    fun s _ hks => absurd hks (List.not_mem_nil _), ?_⟩
  rcases hp with rfl | rfl
  · trivial
  · refine ⟨⟨?_, ?_⟩, ?_⟩
    · rw [lookupParent_cons, if_pos rfl]
    · intro k e hk
      rw [lookupParent_cons] at hk
      split at hk
      · rename_i hkeq
        refine ⟨[], init, GoodKey.root ?_, by simp, hwf, hkeq, rfl⟩
        rw [lookupParent_cons, if_pos hkeq]
      · exact absurd hk (by simp [lookupParent])
    · intro fk hfk
      obtain rfl := List.mem_singleton.mp hfk
      show (lookupParent [(stateKey init, none)] (stateKey init)).isSome = true
      rw [lookupParent_cons, if_pos rfl]
      rfl

/-- C1: whenever `solve` reaches a `clearable: false` verdict (in
particular when the search drains its frame stack without hitting the
node or time budget), no finite sequence of enumerated actions from the
initial state reaches a win: the memoized pruning never discards a
winning subtree. -/
theorem solve_false_not_winnable (elapsed : Nat → Nat) (deck : List Card) (opts : SolveOpts)
    (hv : ∀ c ∈ deck, ValidCard c)
    (h1 : (solve elapsed deck opts).clearable = some false) :
    ¬ Winnable (makeInitialState deck opts.includeSpecialCards opts.startingHp) := by
  have hwf : WFState (makeInitialState deck opts.includeSpecialCards opts.startingHp) :=
    makeInitialState_wf hv
  cases hd : isDeadState (makeInitialState deck opts.includeSpecialCards opts.startingHp) with
  | true => exact not_winnable_of_dead hd
  | false =>
    cases hw : isWinState (makeInitialState deck opts.includeSpecialCards opts.startingHp) with
    | true => simp [solve, hd, hw] at h1
    | false =>
      have hinv := inv_initial (makeInitialState deck opts.includeSpecialCards opts.startingHp)
        hwf hw
        (if opts.returnPath then
          some [(stateKey (makeInitialState deck opts.includeSpecialCards opts.startingHp),
            none)]
         else none)
        (by cases opts.returnPath <;> simp)
      have hres := loopGo_main ⟨opts.maxNodes, opts.timeLimitMs, elapsed⟩
        (makeInitialState deck opts.includeSpecialCards opts.startingHp)
        (opts.maxNodes + 2) 0 [] _ _ hinv
      have hsolve : solve elapsed deck opts =
          loopGo ⟨opts.maxNodes, opts.timeLimitMs, elapsed⟩ (opts.maxNodes + 2) 0 []
            (if opts.returnPath then
              some [(stateKey (makeInitialState deck opts.includeSpecialCards opts.startingHp),
                none)]
             else none)
            [(⟨makeInitialState deck opts.includeSpecialCards opts.startingHp, none, 0⟩,
              stateKey (makeInitialState deck opts.includeSpecialCards opts.startingHp))] := by
        simp [solve, hd, hw]
      rw [hsolve] at h1
      exact hres.1 h1

/-- C1 witness: four spade aces are unwinnable bare-handed; `solve`
reports `clearable: false` and the verdict is sound. -/
theorem solve_false_not_winnable_witness :
    (∀ c ∈ ([⟨Suit.spades, 14⟩, ⟨Suit.spades, 14⟩, ⟨Suit.spades, 14⟩,
        ⟨Suit.spades, 14⟩] : List Card), ValidCard c) ∧
    (solve (fun _ => 0)
        [⟨Suit.spades, 14⟩, ⟨Suit.spades, 14⟩, ⟨Suit.spades, 14⟩, ⟨Suit.spades, 14⟩]
        { maxNodes := 1000, returnPath := false, includeSpecialCards := false,
          startingHp := 20, timeLimitMs := none }).clearable = some false ∧
    ¬ Winnable (makeInitialState
        [⟨Suit.spades, 14⟩, ⟨Suit.spades, 14⟩, ⟨Suit.spades, 14⟩, ⟨Suit.spades, 14⟩]
        false 20) :=
  ⟨fun c hc => by fin_cases hc <;> exact ⟨by norm_num, by norm_num⟩, by decide,
    solve_false_not_winnable (fun _ => 0)
      [⟨Suit.spades, 14⟩, ⟨Suit.spades, 14⟩, ⟨Suit.spades, 14⟩, ⟨Suit.spades, 14⟩]
      { maxNodes := 1000, returnPath := false, includeSpecialCards := false,
        startingHp := 20, timeLimitMs := none }
      (fun c hc => by fin_cases hc <;> exact ⟨by norm_num, by norm_num⟩) (by decide)⟩

/-- C2: with `returnPath` requested, a `clearable: true` verdict's path
replays from the initial state through legal enumerated transitions and
its last step yields the win terminal (empty path only at an immediately
winning initial state). -/
theorem solve_path_wins (elapsed : Nat → Nat) (deck : List Card) (opts : SolveOpts)
    (p : List Action)
    (hv : ∀ c ∈ deck, ValidCard c)
    (hp : (solve elapsed deck opts).clearable = some true)
    (hpath : (solve elapsed deck opts).path = some p) :
    PathWins (makeInitialState deck opts.includeSpecialCards opts.startingHp) p := by
  have hwf : WFState (makeInitialState deck opts.includeSpecialCards opts.startingHp) :=
    makeInitialState_wf hv
  cases hd : isDeadState (makeInitialState deck opts.includeSpecialCards opts.startingHp) with
  | true => simp [solve, hd] at hp
  | false =>
    cases hw : isWinState (makeInitialState deck opts.includeSpecialCards opts.startingHp) with
    | true =>
      have hpe : p = [] := by
        simp [solve, hd, hw] at hpath
        exact hpath
      rw [hpe]
      exact hw
    | false =>
      have hinv := inv_initial (makeInitialState deck opts.includeSpecialCards opts.startingHp)
        hwf hw
        (if opts.returnPath then
          some [(stateKey (makeInitialState deck opts.includeSpecialCards opts.startingHp),
            none)]
         else none)
        (by cases opts.returnPath <;> simp)
      have hres := loopGo_main ⟨opts.maxNodes, opts.timeLimitMs, elapsed⟩
        (makeInitialState deck opts.includeSpecialCards opts.startingHp)
        (opts.maxNodes + 2) 0 [] _ _ hinv
      have hsolve : solve elapsed deck opts =
          loopGo ⟨opts.maxNodes, opts.timeLimitMs, elapsed⟩ (opts.maxNodes + 2) 0 []
            (if opts.returnPath then
              some [(stateKey (makeInitialState deck opts.includeSpecialCards opts.startingHp),
                none)]
             else none)
            [(⟨makeInitialState deck opts.includeSpecialCards opts.startingHp, none, 0⟩,
              stateKey (makeInitialState deck opts.includeSpecialCards opts.startingHp))] := by
        simp [solve, hd, hw]
      rw [hsolve] at hp hpath
      exact hres.2 p hp hpath

/-- C2 witness: on the one-card deck with a rank-2 diamond weapon,
`solve` returns the path `[flee, equip weapon in slot 0]`, and that
path genuinely replays to a win. -/
theorem solve_path_wins_witness :
    (solve (fun _ => 0) [⟨Suit.diamonds, 2⟩]
        { maxNodes := 1000, returnPath := true, includeSpecialCards := false,
          startingHp := 20, timeLimitMs := none }).clearable = some true ∧
    (solve (fun _ => 0) [⟨Suit.diamonds, 2⟩]
        { maxNodes := 1000, returnPath := true, includeSpecialCards := false,
          startingHp := 20, timeLimitMs := none }).path =
      some [Action.flee, Action.weapon 0] ∧
    PathWins (makeInitialState [⟨Suit.diamonds, 2⟩] false 20)
      [Action.flee, Action.weapon 0] :=
  ⟨by decide, by decide,
    solve_path_wins (fun _ => 0) [⟨Suit.diamonds, 2⟩]
      { maxNodes := 1000, returnPath := true, includeSpecialCards := false,
        startingHp := 20, timeLimitMs := none }
      [Action.flee, Action.weapon 0]
      (fun c hc => by fin_cases hc <;> exact ⟨by norm_num, by norm_num⟩)
      (by decide) (by decide)⟩

lemma loopGoCoop_no_abort (cfg : LoopCfg) (y : Nat) :
    ∀ fuel nodes visited parent stack,
      loopGoCoop cfg y (fun _ => false) fuel nodes visited parent stack =
        loopGo cfg fuel nodes visited parent stack := by
  intro fuel
  induction fuel with
  | zero =>
    intro nodes visited parent stack
    rfl
  | succ f ih =>
    intro nodes visited parent stack
    rw [loopGoCoop, loopGo]
    have hfe : loopGoCoop cfg y (fun _ => false) f = loopGo cfg f := by
      funext n v p s
      exact ih n v p s
    simp only [Bool.and_false, Bool.false_eq_true, if_false, hfe]

/-- C8: the cooperative variant (modelled from the spec, as only its
call sites survive in the sources) has the same contract as `solve`
when the abort predicate never fires, and returns the indeterminate
`aborted` verdict immediately when the abort predicate is already set
at the first suspension point of an entered search. -/
theorem solveCooperative_contract (elapsed : Nat → Nat) (deck : List Card) (opts : SolveOpts)
    (y : Nat) (ab : Nat → Bool) :
    solveCooperative elapsed deck opts y (fun _ => false) = solve elapsed deck opts ∧
    (isDeadState (makeInitialState deck opts.includeSpecialCards opts.startingHp) = false →
      isWinState (makeInitialState deck opts.includeSpecialCards opts.startingHp) = false →
      ab 0 = true →
      solveCooperative elapsed deck opts y ab =
        { clearable := none, reason := some Reason.aborted, nodes := some 0 }) := by
  constructor
  · cases hd : isDeadState (makeInitialState deck opts.includeSpecialCards opts.startingHp) with
    | true => simp [solveCooperative, solve, hd]
    | false =>
      cases hw : isWinState (makeInitialState deck opts.includeSpecialCards opts.startingHp) with
      | true => simp [solveCooperative, solve, hd, hw]
      | false =>
        simp only [solveCooperative, solve, hd, hw, Bool.false_eq_true, if_false]
        exact loopGoCoop_no_abort _ y _ _ _ _ _
  · intro hd hw hab
    simp only [solveCooperative, hd, hw, Bool.false_eq_true, if_false]
    rw [show opts.maxNodes + 2 = (opts.maxNodes + 1) + 1 from rfl, loopGoCoop]
    simp [Nat.zero_mod, hab]

/-- C8 witness: on the four-aces deck the cooperative variant with a
never-firing abort predicate returns exactly `solve`'s verdict, and
with an always-firing one returns the `aborted` verdict at once. -/
theorem solveCooperative_contract_witness :
    solveCooperative (fun _ => 0)
        [⟨Suit.spades, 14⟩, ⟨Suit.spades, 14⟩, ⟨Suit.spades, 14⟩, ⟨Suit.spades, 14⟩]
        { maxNodes := 1000, returnPath := false, includeSpecialCards := false,
          startingHp := 20, timeLimitMs := none } 100 (fun _ => false) =
      solve (fun _ => 0)
        [⟨Suit.spades, 14⟩, ⟨Suit.spades, 14⟩, ⟨Suit.spades, 14⟩, ⟨Suit.spades, 14⟩]
        { maxNodes := 1000, returnPath := false, includeSpecialCards := false,
          startingHp := 20, timeLimitMs := none } ∧
    solveCooperative (fun _ => 0)
        [⟨Suit.spades, 14⟩, ⟨Suit.spades, 14⟩, ⟨Suit.spades, 14⟩, ⟨Suit.spades, 14⟩]
        { maxNodes := 1000, returnPath := false, includeSpecialCards := false,
          startingHp := 20, timeLimitMs := none } 100 (fun _ => true) =
      { clearable := none, reason := some Reason.aborted, nodes := some 0 } :=
  ⟨(solveCooperative_contract (fun _ => 0)
      [⟨Suit.spades, 14⟩, ⟨Suit.spades, 14⟩, ⟨Suit.spades, 14⟩, ⟨Suit.spades, 14⟩]
      { maxNodes := 1000, returnPath := false, includeSpecialCards := false,
        startingHp := 20, timeLimitMs := none } 100 (fun _ => true)).1,
   (solveCooperative_contract (fun _ => 0)
      [⟨Suit.spades, 14⟩, ⟨Suit.spades, 14⟩, ⟨Suit.spades, 14⟩, ⟨Suit.spades, 14⟩]
      { maxNodes := 1000, returnPath := false, includeSpecialCards := false,
        startingHp := 20, timeLimitMs := none } 100 (fun _ => true)).2
     (by decide) (by decide) rfl⟩

end Scoundrel
